import Mathlib

/-!
Verification of the FlowCode container-pool / command-execution / repair-heuristic
subsystem against its natural-language specification.

The development shallow-embeds the relevant TypeScript source files:
  * `src/app/api/docker/execute/route.ts`        (command executor route)
  * `src/app/api/docker/containers/route.ts`     (container list route)
  * `src/app/api/docker/cleanup-others/route.ts` (cleanup routes)
  * `src/services/docker-service*.ts`            (pool reconciler, server client)
  * `src/ai/flows/agentric-planning-flow.ts`     (repair heuristic, planning flow)
  * `src/services/gemini-service.ts`             (JSON extraction pipeline)

External effects (the `docker` CLI via `execSync`, HTTP fetches between the
service layer and the route handlers, the LLM) are modelled as explicit oracle
parameters; machine state (the set of live containers) is threaded explicitly.
JavaScript strings are modelled by `String` / `List Char`; JS `Date.getTime()`
of a container's `created` field is modelled as an `Option Nat` timestamp.
-/

namespace FlowCode

/-! ## Generic string helpers (models of JS string primitives) -/

/-- Does `needle` occur as a contiguous sublist of `hay`?
Models `String.prototype.includes` on the underlying character lists. -/
def containsSub (hay needle : List Char) : Bool :=
  match hay with
  | [] => needle.isEmpty
  | _ :: t => needle.isPrefixOf hay || containsSub t needle

/-- Models JS `s.includes(pat)`. -/
def strIncludes (s pat : String) : Bool :=
  containsSub s.toList pat.toList

/-- Index of the first occurrence of `needle` in `hay`, if any. -/
def firstOccur (hay needle : List Char) : Option Nat :=
  match hay with
  | [] => if needle.isEmpty then some 0 else none
  | _ :: t =>
    if needle.isPrefixOf hay then some 0
    else (firstOccur t needle).map (· + 1)

/-- Models JS `s.replace(pat, repl)` with a plain-string pattern:
replaces the first occurrence only; returns `s` unchanged when absent. -/
def replaceFirst (s pat repl : String) : String :=
  match firstOccur s.toList pat.toList with
  | none => s
  | some i =>
    String.mk (s.toList.take i ++ repl.toList ++ s.toList.drop (i + pat.toList.length))

/-- Models JS `s.replace(/["']/g, '')`: delete every double or single quote. -/
def stripQuoteChars (s : String) : String :=
  String.mk (s.toList.filter (fun c => !(c == '"' || c == '\x27')))

/-- Models JS `s.replace(/"/g, '\\"')`: escape every double quote. -/
def escapeDq (s : String) : String :=
  String.mk (s.toList.flatMap (fun c => if c == '"' then ['\\', '"'] else [c]))

/-- Models JS `s.replace(/^"|"$/g, '')`: drop one leading and one trailing
double quote when present (the two alternatives match at most once each). -/
def stripLeadTrailQuote (s : String) : String :=
  let l := s.toList
  let l1 := match l with
    | '"' :: t => t
    | t => t
  let r1 := match l1.reverse with
    | '"' :: t => t
    | t => t
  String.mk r1.reverse

/-- Models JS `a || b` on strings (empty string is falsy). -/
def jsOr (a b : String) : String := if a == "" then b else a

/-- Whitespace accepted between tokens by `JSON.parse`. -/
def jsonWsChar (c : Char) : Bool :=
  c == ' ' || c == '\t' || c == '\n' || c == '\r'

/-- The ECMAScript WhiteSpace and LineTerminator code points: the regex
`\s` class, and what `String.prototype.trim` strips. -/
def jsWsChar (c : Char) : Bool :=
  c == ' ' || c == '\t' || c == '\n' || c == '\r' || c == '\x0b' || c == '\x0c' ||
  c == '\u00A0' || c == '\u1680' || (0x2000 ≤ c.toNat && c.toNat ≤ 0x200A) ||
  c == '\u2028' || c == '\u2029' || c == '\u202F' || c == '\u205F' ||
  c == '\u3000' || c == '\uFEFF'

/-- Models JS `s.trim()`. -/
def jsTrim (s : String) : String :=
  String.mk (((s.toList.dropWhile jsWsChar).reverse.dropWhile jsWsChar).reverse)

/-- Split on a single-character separator, keeping empty pieces — the
behaviour of JS `s.split(sep)` for the one-character separators the
sources use (`' '`, `'\n'`, `'|'`). -/
def splitOnChar (sep : Char) : List Char → List (List Char)
  | [] => [[]]
  | c :: t =>
    if c == sep then [] :: splitOnChar sep t
    else
      match splitOnChar sep t with
      | [] => [[c]]
      | g :: gs => (c :: g) :: gs

/-- Models JS `s.split(sep)` for a one-character separator. -/
def jsSplit (s : String) (sep : Char) : List String :=
  (splitOnChar sep s.toList).map String.mk

/-- Models JS `s.startsWith(pre)`. -/
def jsStartsWith (s pre : String) : Bool :=
  pre.toList.isPrefixOf s.toList

/-- Models JS `s.substring(n)` for `n ≥ 0` (drop the first `n` characters). -/
def jsDropChars (n : Nat) (s : String) : String :=
  String.mk (s.toList.drop n)

/-- Models `s.replace(new RegExp("^tok(\\s)"), repl + "$1")`: when `s` starts
with `tok` immediately followed by a whitespace character, replace that head
token, keeping the whitespace character. -/
def replaceHeadTokenWs (s tok repl : String) : String :=
  let cs := s.toList
  let ts := tok.toList
  if ts.isPrefixOf cs then
    match cs.drop ts.length with
    | c :: rest => if jsWsChar c then String.mk (repl.toList ++ c :: rest) else s
    | [] => s
  else s

/-! ## Command executor route (`src/app/api/docker/execute/route.ts`)

`execSync` is modelled as an oracle taking the command tokens (after the
route's escaping, each token is passed verbatim via `JSON.stringify`) and the
`maxBuffer` option, and returning either the captured stdout or a thrown
error carrying a message and (when the property exists) the stderr text. -/

/-- A thrown `execSync` error: its `.message` plus its `stderr` property
(`none` models the property being absent). -/
structure ExecErr where
  message : String
  stderrProp : Option String
deriving Repr, DecidableEq

/-- The external environment of the execute route handler. -/
structure ExecRouteEnv where
  /-- `docker container inspect <id>` succeeds (route line 17). -/
  containerExists : String → Bool
  /-- `execSync('docker exec <id> <escaped>', {maxBuffer})`:
  tokens and the `maxBuffer` byte ceiling in, stdout or a thrown error out. -/
  runExec : List String → Nat → Except ExecErr String

/-- The JSON body (plus HTTP status) produced by the route. -/
structure ExecRouteResponse where
  status : Nat
  success : Option Bool
  output : Option String
  error : Option String
  details : Option String
  stderr : Option String
deriving Repr, DecidableEq

/-- The command-rewriting block of the route (lines 39-66): `echo` with a
`>` redirect token is rewritten into a `bash -c` sub-shell, and `mkdir`
without `-p` gets `-p` inserted; both conditions test the original
`command`.  All other commands pass through unchanged. -/
def modifyCommand (command : List String) : List String :=
  let n := command.length
  let m1 :=
    if command.headD "" == "echo" && decide (2 < n) && command.getD (n - 2) "" == ">" then
      let fileName := command.getD (n - 1) ""
      let content := String.intercalate " " ((command.drop 1).take (n - 3))
      ["bash", "-c", "echo " ++ content ++ " > \"" ++ fileName ++ "\""]
    else command
  if command.headD "" == "mkdir" && !(command.contains "-p") then
    "mkdir" :: "-p" :: command.drop 1
  else m1

/-- `maxBuffer: 1024 * 1024 * 5` (route line 76). -/
def maxBufferBytes : Nat := 1024 * 1024 * 5

/-- The 400 response for invalid parameters (route lines 9-12). -/
def invalidParamsResponse : ExecRouteResponse :=
  ⟨400, none, none,
    some "Parámetros inválidos. Se requiere containerId y un array de command",
    none, none⟩

/-- The POST handler of `/api/docker/execute` (route lines 4-112).
`containerId`/`command` are `none` when missing from the request body; an
empty `containerId` string is JS-falsy and also rejected.  The workdir probe
(lines 27-37) only feeds a log and is elided.  On a thrown `execSync` error
the route answers HTTP 200 with `success:false` and the error details
(lines 84-100). -/
def executeRoute (env : ExecRouteEnv) (containerId : Option String)
    (command : Option (List String)) : ExecRouteResponse :=
  match containerId, command with
  | some cid, some cmd =>
    if cid == "" then invalidParamsResponse
    else if !env.containerExists cid then
      ⟨404, none, none, some ("El contenedor " ++ cid ++ " no existe"), none, none⟩
    else
      match env.runExec (modifyCommand cmd) maxBufferBytes with
      | .ok out => ⟨200, some true, some (jsTrim out), none, none, none⟩
      | .error e =>
        let stderrTxt := match e.stderrProp with
          | some s => s
          | none => "Salida de error no disponible"
        ⟨200, some false, some (jsOr stderrTxt e.message),
          some "Error al ejecutar comando", some e.message, some stderrTxt⟩
  | _, _ => invalidParamsResponse

/-! ## Agentic planning flow terminal failure handler
(`src/ai/flows/agentric-planning-flow.ts`, lines 829-1064) -/

/-- One plan step (`pasos` array element of the output schema). -/
structure AgenticPlanStep where
  paso : String
  explicacion : String
deriving Repr, DecidableEq

/-- The output schema of the agentic planning flow (lines 29-40). -/
structure AgenticPlanningOutput where
  plan : String
  pasos : List AgenticPlanStep
  requiereInfoExterna : Bool
  requiereAnalisisArchivos : Bool
  detallesVisualizacion : Option String
  archivosSolicitados : Option (List String)
  busquedasRealizadas : Option (List String)
deriving Repr, DecidableEq

/-- The degraded plan built by the flow's catch block (lines 1045-1062). -/
def degradedPlan (msg : String) : AgenticPlanningOutput where
  plan := "Error al generar el plan: " ++ msg
  pasos := [⟨"Error en la generación del plan",
            "Se produjo un error al procesar la solicitud con Gemini."⟩]
  requiereInfoExterna := false
  requiereAnalisisArchivos := false
  detallesVisualizacion := some "No disponible debido a un error."
  archivosSolicitados := some []
  busquedasRealizadas := some []

/-- The flow body's `try`/`catch` dispatch: the whole body (an LLM-driven
computation) is abstracted as an `Except` outcome — `.error msg` models any
unhandled exception with message `msg` — and the flow maps it through the
catch handler instead of propagating. -/
def agenticPlanningFlowRun (body : Except String AgenticPlanningOutput) :
    AgenticPlanningOutput :=
  match body with
  | .ok p => p
  | .error msg => degradedPlan msg

/-! ## Container registry & pool reconciler
(`src/services/docker-service.ts`, class `DockerService`)

The registry state is the list of containers the runtime currently reports
(what `getAllContainers` returns); the `created` field holds the parsed
`new Date(created).getTime()` value, `none` when the field is missing.
Removal of a container via `DELETE /api/docker/container/:id` is modelled by
a success oracle `removeOk : String → Bool`; a failed removal throws, is
caught per-item inside `forceCleanupExceptLatest`'s loop, and leaves the
container in the registry. -/

/-- `this.defaultImage` (docker-service.ts line 188). -/
def defaultImage : String := "codeai-execution-env:latest"

/-- The `ContainerInfo` interface, with `created` as a parsed timestamp. -/
structure ContainerInfo where
  id : String
  name : String
  status : String
  image : String
  created : Option Nat
deriving Repr, DecidableEq

/-- `DockerContainerConfig` (only `image` participates in the reconciler's
reuse check and the creation route's image choice). -/
structure DockerContainerConfig where
  image : String
deriving Repr, DecidableEq

/-- The sort comparator of `getAvailableContainer` (lines 363-366):
`if (!a.created || !b.created) return 0; return getTime(b) - getTime(a)`,
read as the Bool relation "`a` may be placed before `b`" (comparator ≤ 0). -/
def createdLe (a b : ContainerInfo) : Bool :=
  match a.created, b.created with
  | none, _ => true
  | _, none => true
  | some ta, some tb => tb ≤ ta

/-- The creation timestamp a container sorts by (its parsed `getTime()`;
the theorems' hypotheses keep every `created` present, where the comparator
is a total order). -/
def createdVal (c : ContainerInfo) : Nat := c.created.getD 0

/-- Insert into a list sorted by `createdLe`. -/
def orderedIns (a : ContainerInfo) : List ContainerInfo → List ContainerInfo
  | [] => [a]
  | b :: l => if createdLe a b then a :: b :: l else b :: orderedIns a l

/-- `containers.sort(comparator)`: any comparator-respecting sort; under the
theorems' distinct-timestamp hypotheses the comparator is a strict total
order, so every correct sort (the engine's TimSort included) produces this
same descending-by-creation-time list. -/
def sortByCreatedDesc : List ContainerInfo → List ContainerInfo
  | [] => []
  | a :: l => orderedIns a (sortByCreatedDesc l)

/-- The removal loop of `forceCleanupExceptLatest` (lines 633-642): every
container whose id differs from `keepId` gets one `removeContainer` attempt;
a per-item `try`/`catch` swallows failures and the loop continues.  Returns
the surviving registry and the ids whose removal was attempted, in list
order. -/
def cleanupPass (removeOk : String → Bool) (keepId : String) :
    List ContainerInfo → List ContainerInfo × List String
  | [] => ([], [])
  | c :: rest =>
    let r := cleanupPass removeOk keepId rest
    if c.id == keepId then (c :: r.1, r.2)
    else (if removeOk c.id then r.1 else c :: r.1, c.id :: r.2)

/-- Identity of a freshly created container: runtime-assigned id, the name
`codeai-container-${Date.now()}`, and the creation instant. -/
structure FreshMeta where
  id : String
  name : String
  now : Nat
deriving Repr, DecidableEq

/-- The container built by `POST /api/docker/container`
(`container/route.ts` lines 8-102): `DockerService` posts
`config || { image: defaultImage }`, the route applies
`config.image || 'codeai-execution-env:latest'` (an empty image string is
JS-falsy) and reports `status: 'running'`. -/
def mkCreatedContainer (cfg : Option DockerContainerConfig) (m : FreshMeta) :
    ContainerInfo :=
  let img := match cfg with
    | none => defaultImage
    | some k => if k.image == "" then defaultImage else k.image
  ⟨m.id, m.name, "running", img, some m.now⟩

/-- The reuse guard `(!config || latestContainer.image === config.image)`
(lines 375 and 385-386). -/
def imageMatches (cfg : Option DockerContainerConfig) (c : ContainerInfo) : Bool :=
  match cfg with
  | none => true
  | some k => c.image == k.image

/-- Outcome of one serialized `getAvailableContainer` call: the returned
container, the resulting registry, how many containers were created, the
removal attempts of the initial reconciliation pass, all removal attempts
of the call, and the container the reconciliation treated as canonical
(`latestContainer`, when the more-than-one branch ran). -/
structure GacResult where
  returned : ContainerInfo
  registry : List ContainerInfo
  creations : Nat
  reconcileAttempts : List String
  removalAttempts : List String
  canonical : Option ContainerInfo
deriving Repr, DecidableEq

/-- Placeholder for the head of a list already known nonempty. -/
def arbitraryContainer : ContainerInfo := ⟨"", "", "", "", none⟩

/-- The creation tail of `getAvailableContainer` (lines 395-430): create via
the container route, then — when the original list was nonempty — run
`forceCleanupExceptLatest(newContainer.id)` over the now-current registry. -/
def createAndCleanup (removeOk : String → Bool) (m : FreshMeta)
    (cfg : Option DockerContainerConfig) (reg : List ContainerInfo)
    (att1 : List String) (canon : Option ContainerInfo) (hadContainers : Bool) :
    GacResult :=
  let newC := mkCreatedContainer cfg m
  let reg2 := reg ++ [newC]
  if hadContainers then
    let r := cleanupPass removeOk newC.id reg2
    ⟨newC, r.1, 1, att1, att1 ++ r.2, canon⟩
  else
    ⟨newC, reg2, 1, att1, att1, canon⟩

/-- `DockerService.getAvailableContainer` (lines 343-439), serialized: list
the registry; with more than one container sort descending by creation
time, treat the newest as canonical, clean up every other one, and reuse
the canonical when it is running with a matching image; with exactly one
running matching container reuse it; otherwise create a new one (and, when
the original list was nonempty, clean up everything but the new one). -/
def getAvailableContainer (removeOk : String → Bool) (m : FreshMeta)
    (cfg : Option DockerContainerConfig) (registry : List ContainerInfo) :
    GacResult :=
  let containers := registry
  if 1 < containers.length then
    let sorted := sortByCreatedDesc containers
    let latest := sorted.headD arbitraryContainer
    let r := cleanupPass removeOk latest.id containers
    if latest.status == "running" && imageMatches cfg latest then
      ⟨latest, r.1, 0, r.2, r.2, some latest⟩
    else
      createAndCleanup removeOk m cfg r.1 r.2 (some latest) true
  else
    match containers with
    | [c] =>
      if c.status == "running" && imageMatches cfg c then
        ⟨c, containers, 0, [], [], none⟩
      else
        createAndCleanup removeOk m cfg containers [] none true
    | _ => createAndCleanup removeOk m cfg containers [] none false

/-! ## Container list route and cleanup routes
(`containers/route.ts`, `cleanup-others/route.ts`, `cleanup/route.ts`) -/

/-- One line of `docker ps -a --format "{{.ID}}|{{.Names}}|{{.Image}}|{{.Status}}|{{.CreatedAt}}"`
after `line.split('|')` destructuring (containers route line 14); a missing
field (JS `undefined`) is modelled as `""`. -/
structure PsRow where
  id : String
  name : String
  image : String
  rawStatus : String
  created : String
deriving Repr, DecidableEq

def parsePsLine5 (line : String) : PsRow :=
  let ps := jsSplit line '|'
  ⟨ps.getD 0 "", ps.getD 1 "", ps.getD 2 "", ps.getD 3 "", ps.getD 4 ""⟩

/-- The status normalization of the containers route (lines 17-24). -/
def statusTextOf (raw : String) : String :=
  if strIncludes raw "Up" then "running"
  else if strIncludes raw "Exited" then "exited"
  else if strIncludes raw "Created" then "created"
  else "unknown"

/-- The application filter shared by the list/cleanup routes:
`container.name.includes('codeai') || container.image.includes('codeai')`. -/
def codeaiMatch (name image : String) : Bool :=
  strIncludes name "codeai" || strIncludes image "codeai"

/-- A record of the containers route response (lines 26-33). -/
structure ListedContainer where
  id : String
  name : String
  image : String
  status : String
  rawStatus : String
  created : String
deriving Repr, DecidableEq

/-- `output.trim().split('\n').filter(line => line.trim() !== '')`. -/
def listLines (output : String) : List String :=
  (jsSplit (jsTrim output) '\n').filter (fun l => jsTrim l != "")

/-- `GET /api/docker/containers` (containers route lines 7-42): parse the
`docker ps -a` lines, normalize the status, and keep only application
containers. -/
def listContainersRoute (output : String) : List ListedContainer :=
  ((listLines output).map (fun line =>
    let r := parsePsLine5 line
    (⟨r.id, r.name, r.image, statusTextOf r.rawStatus, r.rawStatus, r.created⟩ :
      ListedContainer))).filter
    (fun c => codeaiMatch c.name c.image)

/-- A three-field `docker ps` line as used by the cleanup routes. -/
structure PsRow3 where
  id : String
  name : String
  image : String
deriving Repr, DecidableEq

def parsePsLine3 (line : String) : PsRow3 :=
  let ps := jsSplit line '|'
  ⟨ps.getD 0 "", ps.getD 1 "", ps.getD 2 ""⟩

/-- The containers `POST /api/docker/cleanup-others` stops and removes
(cleanup-others route lines 23-33): application containers other than the
one to keep. -/
def cleanupOthersTargets (output : String) (keepContainerId : String) :
    List PsRow3 :=
  ((listLines output).map parsePsLine3).filter
    (fun c => codeaiMatch c.name c.image && c.id != keepContainerId)

/-- The containers `POST /api/docker/cleanup` stops and removes
(cleanup route lines 128-137): all application containers. -/
def cleanupAllTargets (output : String) : List PsRow3 :=
  ((listLines output).map parsePsLine3).filter
    (fun c => codeaiMatch c.name c.image)

/-- Bridge from a listed container to the service-layer record, given a
date-parsing oracle `dp` for the `created` string. -/
def toServiceInfo (dp : String → Option Nat) (c : ListedContainer) :
    ContainerInfo :=
  ⟨c.id, c.name, c.status, c.image, dp c.created⟩

/-- The container the pool reconciler treats as canonical when fed the list
route's response for raw `docker ps` output `output` (lines 356-369 of
docker-service.ts): defined exactly when more than one application
container was listed. -/
def canonicalOfList (dp : String → Option Nat) (output : String) :
    Option ContainerInfo :=
  let containers := (listContainersRoute output).map (toServiceInfo dp)
  if 1 < containers.length then
    some ((sortByCreatedDesc containers).headD arbitraryContainer)
  else none

/-! ## Repair heuristic `shell_fix_command`
(`src/ai/flows/agentric-planning-flow.ts`, lines 260-417)

Every container command goes through `DockerServiceServer.executeCommand`
(`docker-service-server.ts` lines 48-71), which POSTs to the execute route
and throws only when the HTTP response is not OK; on HTTP 200 it returns
`data.output || ''` without reading `data.success`.  The HTTP layer is
modelled by a `Fetcher` oracle mapping the command tokens to either a 200
body `{success, output}` or a non-OK status text. -/

/-- An execute-route HTTP outcome as seen by the server-side client. -/
inductive RouteReply where
  | ok (success : Bool) (output : String)
  | httpErr (statusText : String)
deriving Repr, DecidableEq

/-- The HTTP oracle: command tokens to route reply. -/
def Fetcher := List String → RouteReply

/-- `DockerServiceServer.executeCommand` (lines 48-71): throw
`Error al ejecutar comando: <statusText>` on a non-OK response, otherwise
resolve with `data.output || ''` — the body's `success` flag is not
consulted. -/
def executeCommandServer (f : Fetcher) (cmd : List String) :
    Except String String :=
  match f cmd with
  | .ok _ output => .ok output
  | .httpErr st => .error ("Error al ejecutar comando: " ++ st)

/-- The repair strategies of `shell_fix_command` (the string values
`"file_not_found"`, `"permission_denied"`, `"command_not_found"`,
`"syntax_error"`, `"general_fallback"`, `"unknown"`). -/
inductive FixStrategy where
  | fileNotFound
  | permissionDenied
  | commandNotFound
  | synErr
  | generalFallback
  | unknownFix
deriving Repr, DecidableEq

/-- The strategy classification of `shell_fix_command`: the
`if`/`else if` conditions over `errorMessage` substrings (lines 276, 309,
321 and 367); `unknownFix` models `fixStrategy` left at `"unknown"`.  In
the source the strategy is assigned inside the same branches that rewrite
the command, but each branch assigns a constant, so the strategy is a
function of the error message alone. -/
def classifyError (errorMsg : String) : FixStrategy :=
  if strIncludes errorMsg "No such file or directory" then .fileNotFound
  else if strIncludes errorMsg "Permission denied" then .permissionDenied
  else if strIncludes errorMsg "command not found" ||
          strIncludes errorMsg "not found" then .commandNotFound
  else if strIncludes errorMsg "unexpected token" ||
          strIncludes errorMsg "syntax error" then .synErr
  else .unknownFix

/-- The strategy `shell_fix_command` finally reports: the classification,
with the `general_fallback` override of lines 375-377 — it fires exactly
when no branch matched (only then is `fixStrategy` still `"unknown"`) and
the original command differs from its own `bash -c` wrapping. -/
def finalStrategy (originalCommand errorMsg : String) : FixStrategy :=
  if classifyError errorMsg == FixStrategy.unknownFix &&
      originalCommand != "bash -c \"" ++ escapeDq originalCommand ++ "\"" then
    .generalFallback
  else classifyError errorMsg

/-- The command-rewrite phase of `shell_fix_command` (lines 268-378),
branching on the same classification chain.  Each `executeCommandServer`
lookup may throw, which propagates to the tool's outer catch
(`Except.error`). -/
def computeFixedCmd (f : Fetcher) (originalCommand errorMsg : String) :
    Except String String := do
  if strIncludes errorMsg "No such file or directory" then
    let fileName := (jsSplit originalCommand ' ').getLastD ""
    if fileName != "" && !(jsStartsWith fileName "-") then
      let cleanFileName := stripQuoteChars fileName
      let foundFiles ← executeCommandServer f
        ["find", "/uploads", "-name", cleanFileName, "-type", "f"]
      if jsTrim foundFiles != "" then
        pure (replaceFirst originalCommand fileName
          ((jsSplit (jsTrim foundFiles) '\n').headD ""))
      else if strIncludes cleanFileName " " then
        pure (replaceFirst originalCommand fileName ("\"" ++ cleanFileName ++ "\""))
      else
        let findAllResult ← executeCommandServer f
          ["bash", "-c",
           "find / -name \"" ++ cleanFileName ++ "\" -type f 2>/dev/null | head -1"]
        if jsTrim findAllResult != "" then
          pure (replaceFirst originalCommand fileName (jsTrim findAllResult))
        else
          pure originalCommand
    else
      pure originalCommand
  else if strIncludes errorMsg "Permission denied" then
    if !(jsStartsWith originalCommand "sudo ") then
      pure ("sudo " ++ originalCommand)
    else
      pure ("bash -c \"" ++ originalCommand ++ "\"")
  else if strIncludes errorMsg "command not found" ||
          strIncludes errorMsg "not found" then
    let mainCommand := (jsSplit originalCommand ' ').headD ""
    let fixed1 ←
      if mainCommand == "python" || mainCommand == "python3" then do
        let pythonVersions ← executeCommandServer f
          ["bash", "-c",
           "command -v python || command -v python3 || echo \"No Python found\""]
        if strIncludes pythonVersions "python3" then
          pure (replaceHeadTokenWs originalCommand "python" "python3")
        else if strIncludes pythonVersions "python" then
          pure (replaceHeadTokenWs originalCommand "python3" "python")
        else
          pure originalCommand
      else if mainCommand == "node" || mainCommand == "npm" then do
        let nodeCheck ← executeCommandServer f
          ["bash", "-c",
           "command -v node || command -v nodejs || echo \"No Node.js found\""]
        if strIncludes nodeCheck "nodejs" && !(strIncludes nodeCheck "node") then
          pure (replaceHeadTokenWs originalCommand "node" "nodejs")
        else
          pure originalCommand
      else
        pure originalCommand
    if fixed1 == originalCommand then
      let whichCommand ← executeCommandServer f
        ["bash", "-c", "which " ++ mainCommand ++ " || echo \"Not found\""]
      if !(strIncludes whichCommand "Not found") then
        pure (replaceHeadTokenWs originalCommand mainCommand (jsTrim whichCommand))
      else
        pure originalCommand
    else
      pure fixed1
  else if strIncludes errorMsg "unexpected token" ||
          strIncludes errorMsg "syntax error" then
    pure ("bash -c \"" ++ escapeDq originalCommand ++ "\"")
  else
    if originalCommand != "bash -c \"" ++ escapeDq originalCommand ++ "\"" then
      pure ("bash -c \"" ++ escapeDq originalCommand ++ "\"")
    else
      pure originalCommand

/-- Strategy and rewritten command together, as the source's two local
variables hold them after lines 268-378. -/
def computeFixed (f : Fetcher) (originalCommand errorMsg : String) :
    Except String (FixStrategy × String) :=
  (computeFixedCmd f originalCommand errorMsg).map
    (fun fc => (finalStrategy originalCommand errorMsg, fc))

/-- Token parsing of the fixed command before its single re-execution
(lines 386-393): a `bash -c` prefix keeps the payload (after
`substring(8).trim()` and `replace(/^"|"$/g,'')`) as one argument; a
command with spaces is split on single spaces; otherwise one token. -/
def parseFixedCommand (fixedCommand : String) : List String :=
  if jsStartsWith fixedCommand "bash -c" then
    ["bash", "-c", stripLeadTrailQuote (jsTrim (jsDropChars 8 fixedCommand))]
  else if strIncludes fixedCommand " " then
    jsSplit fixedCommand ' '
  else
    [fixedCommand]

/-- The object returned by `shell_fix_command`; `none` fields model JS
properties absent from the returned object (the outer catch returns only
`original_command`, `error` and `success`). -/
structure FixResult where
  originalCommand : String
  fixedCommand : Option String
  fixStrategy : Option FixStrategy
  success : Bool
  output : Option String
  errMsg : Option String
deriving Repr, DecidableEq

/-- The whole `shell_fix_command` callback (lines 260-417): compute the
fix (any exception there reaches the outer catch, lines 409-416), then
execute the fixed command exactly once inside the inner `try`/`catch`
(lines 384-400): a resolved `executeCommand` sets `success:true`, a thrown
one sets `success:false` with the thrown message as output. -/
def shellFixCommand (f : Fetcher) (failedCommand errorMsg : String) :
    FixResult :=
  match computeFixed f failedCommand errorMsg with
  | .error m =>
    ⟨failedCommand, none, none, false, none, some m⟩
  | .ok (st, fixedCommand) =>
    match executeCommandServer f (parseFixedCommand fixedCommand) with
    | .ok out => ⟨failedCommand, some fixedCommand, some st, true, some out, none⟩
    | .error m2 => ⟨failedCommand, some fixedCommand, some st, false, some m2, none⟩

/-- The command submissions made by the re-execution phase of
`shell_fix_command`: exactly one when the fix computation completed, none
when it threw. -/
def fixExecCalls (f : Fetcher) (failedCommand errorMsg : String) :
    List (List String) :=
  match computeFixed f failedCommand errorMsg with
  | .error _ => []
  | .ok (_, fixedCommand) => [parseFixedCommand fixedCommand]

/-! ## Structured LLM responses (`src/services/gemini-service.ts`)

`GeminiService.getStructuredResponse` (lines 1031-1053) first tries
`JSON.parse` on the whole response, then `extractJsonFromText`
(lines 1062-1204), then synthesizes a basic object from the schema
(lines 1212-1256).  The development models JS strings as `List Char` here;
`JSON.parse` is modelled by a recursive-descent parser `jsonParseTop` over
the JSON grammar (numbers keep their lexeme — their floating-point value
never matters to these claims). -/

/-- A parsed JSON value.  Object fields keep source order (as JS objects
do); a number keeps its lexeme. -/
inductive Json where
  | null
  | bool (b : Bool)
  | num (lit : String)
  | str (s : String)
  | arr (elems : List Json)
  | obj (fields : List (String × Json))

/-- Hex digit value, for `\u` escapes. -/
def parseHexDigit (c : Char) : Option Nat :=
  if '0' ≤ c && c ≤ '9' then some (c.toNat - 48)
  else if 'a' ≤ c && c ≤ 'f' then some (c.toNat - 87)
  else if 'A' ≤ c && c ≤ 'F' then some (c.toNat - 55)
  else none

/-- JSON string body after the opening quote: the decoded content and the
input after the closing quote.  Raw control characters are rejected, the
standard escapes are decoded (`Char.ofNat` stands in for JS's lone
surrogate handling, which these claims never exercise). -/
def parseStringBody : List Char → Option (List Char × List Char)
  | [] => none
  | '"' :: r => some ([], r)
  | '\\' :: r =>
    match r with
    | [] => none
    | e :: r1 =>
      if e == '"' then (parseStringBody r1).map (fun p => ('"' :: p.1, p.2))
      else if e == '\\' then (parseStringBody r1).map (fun p => ('\\' :: p.1, p.2))
      else if e == '/' then (parseStringBody r1).map (fun p => ('/' :: p.1, p.2))
      else if e == 'b' then (parseStringBody r1).map (fun p => ('\x08' :: p.1, p.2))
      else if e == 'f' then (parseStringBody r1).map (fun p => ('\x0c' :: p.1, p.2))
      else if e == 'n' then (parseStringBody r1).map (fun p => ('\n' :: p.1, p.2))
      else if e == 'r' then (parseStringBody r1).map (fun p => ('\r' :: p.1, p.2))
      else if e == 't' then (parseStringBody r1).map (fun p => ('\t' :: p.1, p.2))
      else if e == 'u' then
        match r1 with
        | a :: b :: c :: d :: r2 =>
          match parseHexDigit a, parseHexDigit b, parseHexDigit c, parseHexDigit d with
          | some ha, some hb, some hc, some hd =>
            (parseStringBody r2).map
              (fun p => (Char.ofNat (((ha * 16 + hb) * 16 + hc) * 16 + hd) :: p.1, p.2))
          | _, _, _, _ => none
        | _ => none
      else none
  | c :: r =>
    if c.toNat < 32 then none
    else (parseStringBody r).map (fun p => (c :: p.1, p.2))

/-- JSON number lexeme: `-? int frac? exp?`; returns the lexeme and rest. -/
def parseNumberLex (l : List Char) : Option (List Char × List Char) :=
  let neg : List Char := if l.headD ' ' == '-' then ['-'] else []
  let l1 : List Char := if l.headD ' ' == '-' then l.drop 1 else l
  match l1 with
  | [] => none
  | c :: t =>
    if c == '0' then
      let (fr, r1) := numFracExp t
      some (neg ++ '0' :: fr, r1)
    else if c.isDigit then
      let ds := t.takeWhile Char.isDigit
      let t1 := t.dropWhile Char.isDigit
      let (fr, r1) := numFracExp t1
      some (neg ++ c :: ds ++ fr, r1)
    else none
where
  /-- Optional fraction and exponent parts. -/
  numFracExp (l : List Char) : List Char × List Char :=
    let (fr, l1) := match l with
      | '.' :: t =>
        let ds := t.takeWhile Char.isDigit
        if ds.isEmpty then (([] : List Char), l)
        else ('.' :: ds, t.dropWhile Char.isDigit)
      | _ => ([], l)
    let (ex, l2) := match l1 with
      | c :: t =>
        if c == 'e' || c == 'E' then
          let (sg, t1) := match t with
            | '+' :: u => (['+'], u)
            | '-' :: u => (['-'], u)
            | u => (([] : List Char), u)
          let ds := t1.takeWhile Char.isDigit
          if ds.isEmpty then (([] : List Char), l1)
          else (c :: (sg ++ ds), t1.dropWhile Char.isDigit)
        else ([], l1)
      | [] => ([], l1)
    (fr ++ ex, l2)

mutual

/-- One JSON value; the `Nat` fuel only serves termination and is chosen
generously by `jsonParseTop`. -/
def parseValue : Nat → List Char → Option (Json × List Char)
  | 0, _ => none
  | fuel + 1, l =>
    match l.dropWhile jsonWsChar with
    | [] => none
    | c :: r =>
      if c == 'n' then
        match r with
        | 'u' :: 'l' :: 'l' :: r2 => some (.null, r2)
        | _ => none
      else if c == 't' then
        match r with
        | 'r' :: 'u' :: 'e' :: r2 => some (.bool true, r2)
        | _ => none
      else if c == 'f' then
        match r with
        | 'a' :: 'l' :: 's' :: 'e' :: r2 => some (.bool false, r2)
        | _ => none
      else if c == '"' then
        match parseStringBody r with
        | some (s, r2) => some (.str (String.mk s), r2)
        | none => none
      else if c == '[' then
        match r.dropWhile jsonWsChar with
        | ']' :: r2 => some (.arr [], r2)
        | _ =>
          match parseElems fuel r with
          | some (es, r2) => some (.arr es, r2)
          | none => none
      else if c == '{' then
        match r.dropWhile jsonWsChar with
        | '}' :: r2 => some (.obj [], r2)
        | _ =>
          match parseMembers fuel r with
          | some (fs, r2) => some (.obj fs, r2)
          | none => none
      else
        match parseNumberLex (c :: r) with
        | some (lex, r2) => some (.num (String.mk lex), r2)
        | none => none

/-- Nonempty comma-separated array elements, up to the closing `]`. -/
def parseElems : Nat → List Char → Option (List Json × List Char)
  | 0, _ => none
  | fuel + 1, l =>
    match parseValue fuel l with
    | none => none
    | some (v, r) =>
      match r.dropWhile jsonWsChar with
      | ',' :: r2 =>
        match parseElems fuel r2 with
        | some (es, r3) => some (v :: es, r3)
        | none => none
      | ']' :: r2 => some ([v], r2)
      | _ => none

/-- Nonempty comma-separated object members, up to the closing `}`. -/
def parseMembers : Nat → List Char → Option (List (String × Json) × List Char)
  | 0, _ => none
  | fuel + 1, l =>
    match l.dropWhile jsonWsChar with
    | '"' :: r =>
      match parseStringBody r with
      | none => none
      | some (k, r2) =>
        match r2.dropWhile jsonWsChar with
        | ':' :: r3 =>
          match parseValue fuel r3 with
          | none => none
          | some (v, r4) =>
            match r4.dropWhile jsonWsChar with
            | ',' :: r5 =>
              match parseMembers fuel r5 with
              | some (fs, r6) => some ((String.mk k, v) :: fs, r6)
              | none => none
            | '}' :: r5 => some ([(String.mk k, v)], r5)
            | _ => none
        | _ => none
    | _ => none

end

/-- Model of `JSON.parse`: skip leading whitespace, parse one value with
ample fuel, and require only whitespace after it. -/
def jsonParseTop (l : List Char) : Option Json :=
  let core := l.dropWhile jsonWsChar
  match parseValue (2 * core.length + 8) core with
  | some (v, rest) => if (rest.dropWhile jsonWsChar).isEmpty then some v else none
  | none => none

/-! ### The Markdown code-fence regex

`extractJsonFromText` (line 1073) matches
`` /```(?:json)?\s*\n?([\s\S]*?)\n?```/ `` and parses capture group 1.
The matcher below reproduces the engine's behaviour:
  * the match starts at the first ` ``` ` occurrence (a match demands a
    second fence later, and every later fence lies after the first, so no
    later start can succeed when the first fails);
  * `(?:json)?` greedily takes a literal `json` when present (taking or
    not taking it cannot change whether a closing fence exists, since
    `json` and whitespace contain no backtick, so the greedy choice is
    final);
  * `\s*` greedily eats the whitespace run; the following `\n?` then
    matches empty (the next character is not whitespace); shrinking `\s*`
    never creates a closing fence, so no backtracking arises;
  * the lazy capture ends at the first closing fence, giving back one
    final `\n` to the trailing `\n?` when possible. -/

/-- Does the list start with three backticks? -/
def isFencePrefix (l : List Char) : Bool :=
  match l with
  | a :: b :: c :: _ => a == '`' && b == '`' && c == '`'
  | _ => false

/-- Index of the first ` ``` ` occurrence. -/
def findFence : List Char → Option Nat
  | [] => none
  | c :: t =>
    if isFencePrefix (c :: t) then some 0 else (findFence t).map (· + 1)

def jsonTagChars : List Char := ['j', 's', 'o', 'n']

/-- Capture group 1 of the code-fence regex, when the regex matches. -/
def matchFenceCapture (text : List Char) : Option (List Char) :=
  match findFence text with
  | none => none
  | some p =>
    let r1 := text.drop (p + 3)
    let r2 := if jsonTagChars.isPrefixOf r1 then r1.drop 4 else r1
    let body := r2.dropWhile jsWsChar
    match findFence body with
    | none => none
    | some q =>
      if 0 < q && body.getD (q - 1) ' ' == '\n' then some (body.take (q - 1))
      else some (body.take q)

/-- `typeof result === 'object' && result !== null` on a JSON value. -/
def isJsObjectValue : Json → Bool
  | .obj _ => true
  | .arr _ => true
  | _ => false

/-- The nested-brace scan of `extractJsonFromText` (lines 1086-1111):
walk the text counting braces; whenever the count returns to zero at a
`}` with a recorded start, try to parse that slice and return it when it
is a non-null object value. -/
def braceScanGo (orig : List Char) : List Char → Nat → Int → Option Nat →
    Option Json
  | [], _, _, _ => none
  | c :: t, i, count, start =>
    if c == '{' then
      braceScanGo orig t (i + 1) (count + 1)
        (if count == 0 then some i else start)
    else if c == '}' then
      let count1 := count - 1
      if count1 == 0 then
        match start with
        | some s =>
          match jsonParseTop ((orig.drop s).take (i + 1 - s)) with
          | some v =>
            if isJsObjectValue v then some v
            else braceScanGo orig t (i + 1) count1 start
          | none => braceScanGo orig t (i + 1) count1 start
        | none => braceScanGo orig t (i + 1) count1 start
      else braceScanGo orig t (i + 1) count1 start
    else braceScanGo orig t (i + 1) count start

def braceScan (text : List Char) : Option Json :=
  braceScanGo text text 0 0 none

/-- `Array.isArray result` on a JSON value. -/
def isJsArrayValue : Json → Bool
  | .arr _ => true
  | _ => false

/-- The bracket scan (lines 1115-1141), guarded by
`text.includes('[') && text.includes(']')`. -/
def bracketScanGo (orig : List Char) : List Char → Nat → Int → Option Nat →
    Option Json
  | [], _, _, _ => none
  | c :: t, i, count, start =>
    if c == '[' then
      bracketScanGo orig t (i + 1) (count + 1)
        (if count == 0 then some i else start)
    else if c == ']' then
      let count1 := count - 1
      if count1 == 0 then
        match start with
        | some s =>
          match jsonParseTop ((orig.drop s).take (i + 1 - s)) with
          | some v =>
            if isJsArrayValue v then some v
            else bracketScanGo orig t (i + 1) count1 start
          | none => bracketScanGo orig t (i + 1) count1 start
        | none => bracketScanGo orig t (i + 1) count1 start
      else bracketScanGo orig t (i + 1) count1 start
    else bracketScanGo orig t (i + 1) count start

def bracketScan (text : List Char) : Option Json :=
  if text.contains '[' && text.contains ']' then
    bracketScanGo text text 0 0 none
  else none

/-- The JS regex `\w` class. -/
def wordChar (c : Char) : Bool :=
  c.isAlpha || c.isDigit || c == '_'

/-- `text.replace(/(\w+)'\s*:/g, '"$1":')` (line 1145): a maximal word
run followed by a single quote, whitespace and a colon becomes a
double-quoted key.  (The `\w+` is effectively the maximal run: any
shorter greedy retreat puts a word character where the quote must be.)
The fuel starts at `length + 1`; every step consumes at least one
character, so it never runs out. -/
def fixQuoteKeysGo : Nat → List Char → List Char
  | 0, l => l
  | _, [] => []
  | fuel + 1, c :: t =>
    if wordChar c then
      match (c :: t).dropWhile wordChar with
      | '\x27' :: r1 =>
        match r1.dropWhile jsWsChar with
        | ':' :: r3 =>
          '"' :: ((c :: t).takeWhile wordChar ++ '"' :: ':' :: fixQuoteKeysGo fuel r3)
        | _ => c :: fixQuoteKeysGo fuel t
      | _ => c :: fixQuoteKeysGo fuel t
    else c :: fixQuoteKeysGo fuel t

/-- `fixedText.replace(/:\s*'([^']+)'/g, ':"$1"')` (line 1146). -/
def fixQuoteValuesGo : Nat → List Char → List Char
  | 0, l => l
  | _, [] => []
  | fuel + 1, c :: t =>
    if c == ':' then
      match t.dropWhile jsWsChar with
      | '\x27' :: r1 =>
        let content := r1.takeWhile (fun x => x != '\x27')
        if content.isEmpty then c :: fixQuoteValuesGo fuel t
        else
          match r1.dropWhile (fun x => x != '\x27') with
          | '\x27' :: r3 =>
            ':' :: '"' :: (content ++ '"' :: fixQuoteValuesGo fuel r3)
          | _ => c :: fixQuoteValuesGo fuel t
      | _ => c :: fixQuoteValuesGo fuel t
    else c :: fixQuoteValuesGo fuel t

/-- Split on newline characters (for the `m`-flagged line-comment regex). -/
def splitNl : List Char → List (List Char)
  | [] => [[]]
  | '\n' :: t => [] :: splitNl t
  | c :: t =>
    match splitNl t with
    | [] => [[c]]
    | g :: gs => (c :: g) :: gs

def joinNl : List (List Char) → List Char
  | [] => []
  | [g] => g
  | g :: gs => g ++ '\n' :: joinNl gs

/-- `fixedText.replace(/\/\/.*$/gm, '')` (line 1149): truncate each line
at its first `//`. -/
def stripLineComments (l : List Char) : List Char :=
  joinNl ((splitNl l).map (fun line =>
    match firstOccur line ['/', '/'] with
    | some i => line.take i
    | none => line))

/-- `fixedText.replace(/\/\*[\s\S]*?\*\//g, '')` (line 1150): drop each
`/*` up to the first following `*/`; an unterminated `/*` stays. -/
def stripBlockComments : Nat → List Char → List Char
  | 0, l => l
  | _, [] => []
  | fuel + 1, '/' :: t =>
    match t with
    | '*' :: r =>
      match firstOccur r ['*', '/'] with
      | some i => stripBlockComments fuel (r.drop (i + 2))
      | none => '/' :: stripBlockComments fuel t
    | _ => '/' :: stripBlockComments fuel t
  | fuel + 1, c :: t => c :: stripBlockComments fuel t

/-- Leftmost-shortest match of `/{[\s\S]*?}/`-style patterns: from the
first opening delimiter to the first closing delimiter after it. -/
def lazyDelimMatch (openC closeC : Char) (text : List Char) :
    Option (List Char) :=
  match firstOccur text [openC] with
  | none => none
  | some i =>
    let after := text.drop (i + 1)
    match firstOccur after [closeC] with
    | none => none
    | some j => some (openC :: (after.take j ++ [closeC]))

/-- One value alternative of the key-value regex (line 1175):
`"[^"]*"`, `\d+`, `true`, `false`, `null`, a lazy `{...}` or a lazy
`[...]`, tried in that order; returns the matched lexeme and the rest. -/
def matchValueAlt : List Char → Option (List Char × List Char)
  | [] => none
  | c :: t =>
    if c == '"' then
      match t.dropWhile (fun x => x != '"') with
      | '"' :: r2 => some ('"' :: (t.takeWhile (fun x => x != '"') ++ ['"']), r2)
      | _ => none
    else if c.isDigit then
      some ((c :: t).takeWhile Char.isDigit, (c :: t).dropWhile Char.isDigit)
    else if ['t', 'r', 'u', 'e'].isPrefixOf (c :: t) then
      some (['t', 'r', 'u', 'e'], (c :: t).drop 4)
    else if ['f', 'a', 'l', 's', 'e'].isPrefixOf (c :: t) then
      some (['f', 'a', 'l', 's', 'e'], (c :: t).drop 5)
    else if ['n', 'u', 'l', 'l'].isPrefixOf (c :: t) then
      some (['n', 'u', 'l', 'l'], (c :: t).drop 4)
    else if c == '{' then
      match firstOccur t ['}'] with
      | some j => some ('{' :: (t.take j ++ ['}']), t.drop (j + 1))
      | none => none
    else if c == '[' then
      match firstOccur t [']'] with
      | some j => some ('[' :: (t.take j ++ [']']), t.drop (j + 1))
      | none => none
    else none

/-- JS object property assignment: overwrite in place or append. -/
def upsertProp (ps : List (String × Json)) (k : String) (v : Json) :
    List (String × Json) :=
  if ps.any (fun p => p.1 == k) then
    ps.map (fun p => if p.1 == k then (k, v) else p)
  else ps ++ [(k, v)]

/-- The final key-value salvage loop (lines 1174-1196): repeatedly find
`"key":` followed by a value alternative, `JSON.parse` the value (else
keep it as a quote-stripped string), and collect into an object. -/
def propsScanGo : Nat → List Char → List (String × Json) →
    List (String × Json)
  | 0, _, acc => acc
  | _, [], acc => acc
  | fuel + 1, c :: t, acc =>
    if c == '"' then
      match t.dropWhile (fun x => x != '"') with
      | '"' :: ':' :: r2 =>
        if (t.takeWhile (fun x => x != '"')).isEmpty then
          propsScanGo fuel t acc
        else
          match matchValueAlt (r2.dropWhile jsWsChar) with
          | some (valLex, rest) =>
            let key := String.mk (t.takeWhile (fun x => x != '"'))
            let value : Json :=
              match jsonParseTop valLex with
              | some v => v
              | none => .str (stripLeadTrailQuote (String.mk valLex))
            propsScanGo fuel rest (upsertProp acc key value)
          | none => propsScanGo fuel t acc
      | _ => propsScanGo fuel t acc
    else propsScanGo fuel t acc

/-- `GeminiService.extractJsonFromText` (lines 1062-1204): direct parse,
fenced code block (a falsy — empty — capture is skipped), brace scan,
bracket scan, quote/comment repairs followed by lazy `{...}` and `[...]`
matches, and finally the key-value salvage scan over the original text. -/
def extractJson (text : List Char) : Option Json :=
  match jsonParseTop text with
  | some v => some v
  | none =>
    match
      (match matchFenceCapture text with
       | some cap => if cap.isEmpty then none else jsonParseTop cap
       | none => none) with
    | some v => some v
    | none =>
      match braceScan text with
      | some v => some v
      | none =>
        match bracketScan text with
        | some v => some v
        | none =>
          let fixedText :=
            stripBlockComments (text.length + 1)
              (stripLineComments
                (fixQuoteValuesGo (text.length + 1)
                  (fixQuoteKeysGo (text.length + 1) text)))
          match
            (match lazyDelimMatch '{' '}' fixedText with
             | some cand => jsonParseTop cand
             | none => none) with
          | some v => some v
          | none =>
            match
              (match lazyDelimMatch '[' ']' fixedText with
               | some cand => jsonParseTop cand
               | none => none) with
            | some v => some v
            | none =>
              let props := propsScanGo (text.length + 1) text []
              if props.isEmpty then none else some (.obj props)

/-! ### Basic schema response and the structured-response dispatch -/

/-- The shape of one schema property as consumed by
`createBasicResponseFromSchema` (lines 1212-1256): its `type` string,
and for arrays whether `items` is an object type with named properties. -/
inductive SchemaPropTy where
  | strTy
  | boolTy
  | arrTy (itemObjectProps : Option (List String))
  | objTy
  | otherTy
deriving Repr, DecidableEq

/-- The parts of a `StructuredOutputConfig` the fallback consumes. -/
structure SchemaCfg where
  properties : List (String × SchemaPropTy)
deriving Repr, DecidableEq

/-- The value `createBasicResponseFromSchema` assigns to one property
named `k` of type `ty` (the `switch` of lines 1218-1247). -/
def basicValue (text : String) (k : String) : SchemaPropTy → Json
  | .strTy =>
    if k == "plan" then Json.str text
    else Json.str ("Información extraída para " ++ k)
  | .boolTy => Json.bool false
  | .arrTy none => Json.arr []
  | .arrTy (some itemKeys) =>
    Json.arr [Json.obj (itemKeys.map
      (fun ik => (ik, Json.str ("Ejemplo de " ++ ik))))]
  | .objTy => Json.obj []
  | .otherTy => Json.null

/-- `createBasicResponseFromSchema` (lines 1212-1256). -/
def createBasicResponseFromSchema (schema : SchemaCfg) (text : String) :
    Json :=
  .obj (schema.properties.map (fun kp => (kp.1, basicValue text kp.1 kp.2)))

/-- Is a JSON number lexeme the number zero (hence JS-falsy)? -/
def numLexIsZero (lit : String) : Bool :=
  let l := match lit.toList with
    | '-' :: t => t
    | t => t
  (l.takeWhile (fun c => !(c == 'e' || c == 'E'))).all
    (fun c => c == '0' || c == '.')

/-- JS truthiness of a JSON value, as tested by
`if (extractedJson)` (line 1042). -/
def jsTruthy : Json → Bool
  | .null => false
  | .bool b => b
  | .num lit => !(numLexIsZero lit)
  | .str s => s != ""
  | .arr _ => true
  | .obj _ => true

/-- The response-parsing tail of `getStructuredResponse`
(lines 1032-1053): direct `JSON.parse`, then truthy extraction, then the
schema-based basic response. -/
def structuredResponse (schema : SchemaCfg) (text : List Char) : Json :=
  match jsonParseTop text with
  | some v => v
  | none =>
    match extractJson text with
    | some v =>
      if jsTruthy v then v
      else createBasicResponseFromSchema schema (String.mk text)
    | none => createBasicResponseFromSchema schema (String.mk text)

/-- Does a value's kind match a schema property type, in the sense the
basic response realizes it? -/
def propKindMatches : SchemaPropTy → Json → Bool
  | .strTy, .str _ => true
  | .boolTy, .bool _ => true
  | .arrTy _, .arr _ => true
  | .objTy, .obj _ => true
  | .otherTy, .null => true
  | _, _ => false

def lookupProp (fields : List (String × Json)) (k : String) : Option Json :=
  (fields.find? (fun p => p.1 == k)).map (·.2)

/-- Minimal schema conformance: an object carrying every declared
property with a kind-matching value. -/
def conformsToSchema (schema : SchemaCfg) : Json → Bool
  | .obj fields =>
    schema.properties.all (fun kp =>
      match lookupProp fields kp.1 with
      | some v => propKindMatches kp.2 v
      | none => false)
  | _ => false

/-- The closing fence of a Markdown code block. -/
def closingFence : List Char := '\n' :: '`' :: '`' :: '`' :: []

/-- A response that wraps `s` in a ```` ```json ```` fenced block. -/
def wrapFenceJson (s : List Char) : List Char :=
  '`' :: '`' :: '`' :: 'j' :: 's' :: 'o' :: 'n' :: '\n' :: (s ++ closingFence)

/-- A response that wraps `s` in a plain ```` ``` ```` fenced block. -/
def wrapFencePlain (s : List Char) : List Char :=
  '`' :: '`' :: '`' :: '\n' :: (s ++ closingFence)

/-! # Helper lemmas -/

theorem string_mk_append (r : String) (x : List Char) :
    String.mk (r.toList ++ x) = r ++ String.mk x := by
  cases r
  rfl

theorem headD_mem {α : Type} {l : List α} (h : l ≠ []) (d : α) :
    l.headD d ∈ l := by
  cases l with
  | nil => exact absurd rfl h
  | cons a t => simp

/-! ## Cleanup pass -/

/-- The removal attempts of a cleanup pass are exactly the other
containers' ids, whatever the removal oracle answers. -/
theorem cleanupPass_attempts (ok : String → Bool) (keep : String)
    (l : List ContainerInfo) :
    (cleanupPass ok keep l).2 = (l.filter (fun c => c.id != keep)).map (·.id) := by
  induction l with
  | nil => rfl
  | cons c t ih =>
    by_cases h : (c.id == keep) = true
    · simp [cleanupPass, h, ih, List.filter_cons, bne]
    · simp [cleanupPass, h, ih, List.filter_cons, bne]

/-! ## Sorting by creation time -/

theorem orderedIns_ne_nil (a : ContainerInfo) (l : List ContainerInfo) :
    orderedIns a l ≠ [] := by
  cases l with
  | nil => simp [orderedIns]
  | cons b t =>
    simp only [orderedIns]
    split <;> simp

theorem sortByCreatedDesc_ne_nil {l : List ContainerInfo} (h : l ≠ []) :
    sortByCreatedDesc l ≠ [] := by
  cases l with
  | nil => exact absurd rfl h
  | cons a t => exact orderedIns_ne_nil a _

theorem mem_orderedIns {x a : ContainerInfo} {l : List ContainerInfo} :
    x ∈ orderedIns a l ↔ x = a ∨ x ∈ l := by
  induction l with
  | nil => simp [orderedIns]
  | cons b t ih =>
    simp only [orderedIns]
    split
    · simp
    · simp only [List.mem_cons, ih]
      tauto

theorem mem_sortByCreatedDesc {x : ContainerInfo} {l : List ContainerInfo} :
    x ∈ sortByCreatedDesc l ↔ x ∈ l := by
  induction l with
  | nil => simp [sortByCreatedDesc]
  | cons a t ih => simp [sortByCreatedDesc, mem_orderedIns, ih]

theorem createdLe_iff_of_isSome {a b : ContainerInfo}
    (ha : a.created.isSome = true) (hb : b.created.isSome = true) :
    createdLe a b = decide (createdVal b ≤ createdVal a) := by
  rcases ha' : a.created with _ | ta
  · rw [ha'] at ha
    exact absurd ha (by simp)
  rcases hb' : b.created with _ | tb
  · rw [hb'] at hb
    exact absurd hb (by simp)
  simp [createdLe, createdVal, ha', hb']

/-- The head of the descending sort carries the maximal creation time. -/
theorem sort_headD_max {l : List ContainerInfo} (hne : l ≠ [])
    (hsome : ∀ c ∈ l, c.created.isSome = true) :
    (sortByCreatedDesc l).headD arbitraryContainer ∈ l ∧
    ∀ y ∈ l, createdVal y ≤
      createdVal ((sortByCreatedDesc l).headD arbitraryContainer) := by
  induction l with
  | nil => exact absurd rfl hne
  | cons a t ih =>
    cases t with
    | nil =>
      constructor
      · simp [sortByCreatedDesc, orderedIns]
      · intro y hy
        rcases List.mem_singleton.mp hy with rfl
        simp [sortByCreatedDesc, orderedIns]
    | cons b t' =>
      have hsome' : ∀ c ∈ b :: t', c.created.isSome = true :=
        fun c hc => hsome c (List.mem_cons_of_mem _ hc)
      obtain ⟨hmem, hmax⟩ := ih (by simp) hsome'
      have hs'ne : sortByCreatedDesc (b :: t') ≠ [] :=
        sortByCreatedDesc_ne_nil (by simp)
      obtain ⟨h0, rest, hcons⟩ : ∃ h0 rest, sortByCreatedDesc (b :: t') = h0 :: rest := by
        cases hs : sortByCreatedDesc (b :: t') with
        | nil => exact absurd hs hs'ne
        | cons x xs => exact ⟨x, xs, rfl⟩
      rw [hcons] at hmem hmax
      simp only [List.headD_cons] at hmem hmax
      have hsort : sortByCreatedDesc (a :: b :: t') = orderedIns a (h0 :: rest) := by
        show orderedIns a (sortByCreatedDesc (b :: t')) = _
        rw [hcons]
      have ha : a.created.isSome = true := hsome a (by simp)
      have hh0 : h0.created.isSome = true := hsome' h0 hmem
      by_cases hle : createdLe a h0 = true
      · have hva : createdVal h0 ≤ createdVal a := by
          rw [createdLe_iff_of_isSome ha hh0] at hle
          exact of_decide_eq_true hle
        rw [hsort]
        simp only [orderedIns, hle, if_true]
        constructor
        · simp
        · intro y hy
          simp only [List.headD_cons]
          rcases List.mem_cons.mp hy with rfl | hy'
          · exact Nat.le_refl _
          · exact Nat.le_trans (hmax y hy') hva
      · have hva : createdVal a < createdVal h0 := by
          rw [createdLe_iff_of_isSome ha hh0] at hle
          simp only [decide_eq_true_eq] at hle
          omega
        rw [hsort]
        simp only [orderedIns, if_neg hle]
        constructor
        · exact List.mem_cons_of_mem _ hmem
        · intro y hy
          simp only [List.headD_cons]
          rcases List.mem_cons.mp hy with rfl | hy'
          · exact Nat.le_of_lt hva
          · exact hmax y hy'

/-- In the more-than-one branch, the canonical container is the head of the
descending sort and the reconciliation attempts are the cleanup pass over
the listed registry. -/
theorem gac_gt1 (ok : String → Bool) (m : FreshMeta)
    (cfg : Option DockerContainerConfig) {reg : List ContainerInfo}
    (h : 1 < reg.length) :
    (getAvailableContainer ok m cfg reg).canonical =
      some ((sortByCreatedDesc reg).headD arbitraryContainer) ∧
    (getAvailableContainer ok m cfg reg).reconcileAttempts =
      (cleanupPass ok ((sortByCreatedDesc reg).headD arbitraryContainer).id reg).2 := by
  simp only [getAvailableContainer]
  rw [if_pos h]
  split
  · exact ⟨rfl, rfl⟩
  · constructor <;> simp [createAndCleanup]

/-! # Claim theorems -/

/-- C1: for every registry state with two or more containers (all with
parsed creation times, distinct times and distinct ids),
`getAvailableContainer` treats exactly the container with the most recent
creation time as canonical, attempts removal of every other discovered
container, never attempts removal of the canonical one, and the set of
removal attempts is the same whatever the per-item removal outcomes are —
an individual removal failure is caught per item and does not abort the
rest. -/
theorem c1_newest_canonical (removeOk : String → Bool) (m : FreshMeta)
    (cfg : Option DockerContainerConfig) (registry : List ContainerInfo)
    (h2 : 2 ≤ registry.length)
    (hsome : ∀ c ∈ registry, c.created.isSome = true)
    (hdist : registry.Pairwise (fun a b => createdVal a ≠ createdVal b))
    (hids : registry.Pairwise (fun a b => a.id ≠ b.id)) :
    ∃ L, (getAvailableContainer removeOk m cfg registry).canonical = some L ∧
      L ∈ registry ∧
      (∀ c ∈ registry, c ≠ L → createdVal c < createdVal L) ∧
      (∀ c ∈ registry, c ≠ L →
        c.id ∈ (getAvailableContainer removeOk m cfg registry).reconcileAttempts) ∧
      L.id ∉ (getAvailableContainer removeOk m cfg registry).reconcileAttempts ∧
      (∀ ok2 : String → Bool,
        (getAvailableContainer ok2 m cfg registry).reconcileAttempts =
          (getAvailableContainer removeOk m cfg registry).reconcileAttempts) := by
  have h1 : 1 < registry.length := h2
  have hne : registry ≠ [] := by
    intro h
    rw [h] at h1
    simp at h1
  obtain ⟨hcan, hatt⟩ := gac_gt1 removeOk m cfg h1
  obtain ⟨hLmem, hLmax⟩ := sort_headD_max hne hsome
  refine ⟨(sortByCreatedDesc registry).headD arbitraryContainer, hcan, hLmem,
    ?_, ?_, ?_, ?_⟩
  · intro c hc hneq
    have hle := hLmax c hc
    have hneval : createdVal c ≠
        createdVal ((sortByCreatedDesc registry).headD arbitraryContainer) :=
      hdist.forall (fun _ _ h => Ne.symm h) hc hLmem hneq
    omega
  · intro c hc hneq
    rw [hatt, cleanupPass_attempts]
    have hneid : c.id ≠ ((sortByCreatedDesc registry).headD arbitraryContainer).id :=
      hids.forall (fun _ _ h => Ne.symm h) hc hLmem hneq
    refine List.mem_map.mpr ⟨c, List.mem_filter.mpr ⟨hc, ?_⟩, rfl⟩
    simpa [bne] using hneid
  · rw [hatt, cleanupPass_attempts]
    intro hmem
    obtain ⟨x, hx, hxid⟩ := List.mem_map.mp hmem
    obtain ⟨_, hxne⟩ := List.mem_filter.mp hx
    rw [hxid] at hxne
    simp [bne] at hxne
  · intro ok2
    obtain ⟨_, hatt2⟩ := gac_gt1 ok2 m cfg h1
    rw [hatt, hatt2, cleanupPass_attempts, cleanupPass_attempts]

/-- C1 witness: three containers with creation times 10 < 20 < 30 and a
removal oracle that fails on the oldest. -/
theorem c1_newest_canonical_witness :
    ∃ L, (getAvailableContainer (fun i => i != "id1") ⟨"new", "nn", 99⟩ none
        [⟨"id1", "n1", "running", "img", some 10⟩,
         ⟨"id2", "n2", "exited", "img", some 20⟩,
         ⟨"id3", "n3", "running", "codeai-execution-env:latest", some 30⟩]).canonical
        = some L ∧
      L ∈ [⟨"id1", "n1", "running", "img", some 10⟩,
         ⟨"id2", "n2", "exited", "img", some 20⟩,
         ⟨"id3", "n3", "running", "codeai-execution-env:latest", some 30⟩] ∧
      (∀ c ∈ [⟨"id1", "n1", "running", "img", some 10⟩,
         ⟨"id2", "n2", "exited", "img", some 20⟩,
         (⟨"id3", "n3", "running", "codeai-execution-env:latest", some 30⟩ :
           ContainerInfo)], c ≠ L → createdVal c < createdVal L) ∧
      (∀ c ∈ [⟨"id1", "n1", "running", "img", some 10⟩,
         ⟨"id2", "n2", "exited", "img", some 20⟩,
         (⟨"id3", "n3", "running", "codeai-execution-env:latest", some 30⟩ :
           ContainerInfo)], c ≠ L →
        c.id ∈ (getAvailableContainer (fun i => i != "id1") ⟨"new", "nn", 99⟩ none
          [⟨"id1", "n1", "running", "img", some 10⟩,
           ⟨"id2", "n2", "exited", "img", some 20⟩,
           ⟨"id3", "n3", "running", "codeai-execution-env:latest", some 30⟩]).reconcileAttempts) ∧
      L.id ∉ (getAvailableContainer (fun i => i != "id1") ⟨"new", "nn", 99⟩ none
          [⟨"id1", "n1", "running", "img", some 10⟩,
           ⟨"id2", "n2", "exited", "img", some 20⟩,
           ⟨"id3", "n3", "running", "codeai-execution-env:latest", some 30⟩]).reconcileAttempts ∧
      (∀ ok2 : String → Bool,
        (getAvailableContainer ok2 ⟨"new", "nn", 99⟩ none
          [⟨"id1", "n1", "running", "img", some 10⟩,
           ⟨"id2", "n2", "exited", "img", some 20⟩,
           ⟨"id3", "n3", "running", "codeai-execution-env:latest", some 30⟩]).reconcileAttempts =
        (getAvailableContainer (fun i => i != "id1") ⟨"new", "nn", 99⟩ none
          [⟨"id1", "n1", "running", "img", some 10⟩,
           ⟨"id2", "n2", "exited", "img", some 20⟩,
           ⟨"id3", "n3", "running", "codeai-execution-env:latest", some 30⟩]).reconcileAttempts) :=
  c1_newest_canonical (fun i => i != "id1") ⟨"new", "nn", 99⟩ none
    [⟨"id1", "n1", "running", "img", some 10⟩,
     ⟨"id2", "n2", "exited", "img", some 20⟩,
     ⟨"id3", "n3", "running", "codeai-execution-env:latest", some 30⟩]
    (by decide) (by decide) (by decide) (by decide)

/-- C2 counterexample: with the config `{ image: "" }` (an empty image
string, which is JS-falsy), the first call on an empty registry creates one
container, but the second immediate call with the same config creates a
second container instead of reusing the first: the creation route falls
back to the default image, so the reuse check
`latestContainer.image === config.image` fails. -/
theorem c2_counterexample :
    (getAvailableContainer (fun _ => true) ⟨"cA", "nA", 1⟩ (some ⟨""⟩) []).creations
      = 1 ∧
    (getAvailableContainer (fun _ => true) ⟨"cB", "nB", 2⟩ (some ⟨""⟩)
      (getAvailableContainer (fun _ => true) ⟨"cA", "nA", 1⟩ (some ⟨""⟩)
        []).registry).creations = 1 ∧
    (getAvailableContainer (fun _ => true) ⟨"cB", "nB", 2⟩ (some ⟨""⟩)
      (getAvailableContainer (fun _ => true) ⟨"cA", "nA", 1⟩ (some ⟨""⟩)
        []).registry).returned ≠
      (getAvailableContainer (fun _ => true) ⟨"cA", "nA", 1⟩ (some ⟨""⟩)
        []).returned := by
  decide

/-- C2 (amended): serialized calls on an empty registry, for a config that
is absent or has a non-empty image: the first call creates exactly one
container, and a second immediate call with the same config returns that
just-created container without creating another and without touching the
registry. -/
theorem c2_reuse_amended (cfg : Option DockerContainerConfig)
    (m1 m2 : FreshMeta) (ok1 ok2 : String → Bool)
    (himg : ∀ k, cfg = some k → k.image ≠ "") :
    (getAvailableContainer ok1 m1 cfg []).creations = 1 ∧
    (getAvailableContainer ok2 m2 cfg
      (getAvailableContainer ok1 m1 cfg []).registry).creations = 0 ∧
    (getAvailableContainer ok2 m2 cfg
      (getAvailableContainer ok1 m1 cfg []).registry).returned =
      (getAvailableContainer ok1 m1 cfg []).returned ∧
    (getAvailableContainer ok2 m2 cfg
      (getAvailableContainer ok1 m1 cfg []).registry).registry =
      (getAvailableContainer ok1 m1 cfg []).registry := by
  have hr1 : getAvailableContainer ok1 m1 cfg [] =
      ⟨mkCreatedContainer cfg m1, [mkCreatedContainer cfg m1], 1, [], [], none⟩ := by
    simp [getAvailableContainer, createAndCleanup]
  have hmatch : imageMatches cfg (mkCreatedContainer cfg m1) = true := by
    rcases cfg with _ | k
    · rfl
    · have hk : (k.image == "") = false := by
        cases h : k.image == ""
        · rfl
        · exact absurd (by simpa using h) (himg k rfl)
      simp [imageMatches, mkCreatedContainer, hk]
  have hr2 : getAvailableContainer ok2 m2 cfg [mkCreatedContainer cfg m1] =
      ⟨mkCreatedContainer cfg m1, [mkCreatedContainer cfg m1], 0, [], [], none⟩ := by
    have hst : (mkCreatedContainer cfg m1).status = "running" := rfl
    simp [getAvailableContainer, hmatch, hst]
  rw [hr1]
  rw [hr2]
  exact ⟨rfl, rfl, rfl, rfl⟩

/-- C2 witness: a config with the (non-empty) default image. -/
theorem c2_reuse_witness :
    (getAvailableContainer (fun _ => true) ⟨"cA", "nA", 1⟩
      (some ⟨"codeai-execution-env:latest"⟩) []).creations = 1 ∧
    (getAvailableContainer (fun _ => true) ⟨"cB", "nB", 2⟩
      (some ⟨"codeai-execution-env:latest"⟩)
      (getAvailableContainer (fun _ => true) ⟨"cA", "nA", 1⟩
        (some ⟨"codeai-execution-env:latest"⟩) []).registry).creations = 0 ∧
    (getAvailableContainer (fun _ => true) ⟨"cB", "nB", 2⟩
      (some ⟨"codeai-execution-env:latest"⟩)
      (getAvailableContainer (fun _ => true) ⟨"cA", "nA", 1⟩
        (some ⟨"codeai-execution-env:latest"⟩) []).registry).returned =
      (getAvailableContainer (fun _ => true) ⟨"cA", "nA", 1⟩
        (some ⟨"codeai-execution-env:latest"⟩) []).returned ∧
    (getAvailableContainer (fun _ => true) ⟨"cB", "nB", 2⟩
      (some ⟨"codeai-execution-env:latest"⟩)
      (getAvailableContainer (fun _ => true) ⟨"cA", "nA", 1⟩
        (some ⟨"codeai-execution-env:latest"⟩) []).registry).registry =
      (getAvailableContainer (fun _ => true) ⟨"cA", "nA", 1⟩
        (some ⟨"codeai-execution-env:latest"⟩) []).registry :=
  c2_reuse_amended (some ⟨"codeai-execution-env:latest"⟩) ⟨"cA", "nA", 1⟩
    ⟨"cB", "nB", 2⟩ (fun _ => true) (fun _ => true)
    (fun k hk => by cases hk; decide)

/-- C6 counterexample: the caller submits `["echo", "hi", ">", "f.txt"]`
— no shell requested — and the executor rewrites it into a `bash -c`
sub-shell invocation with changed tokens. -/
theorem c6_counterexample :
    modifyCommand ["echo", "hi", ">", "f.txt"]
      = ["bash", "-c", "echo hi > \"f.txt\""] ∧
    modifyCommand ["echo", "hi", ">", "f.txt"] ≠ ["echo", "hi", ">", "f.txt"] ∧
    modifyCommand ["mkdir", "foo"] ≠ ["mkdir", "foo"] := by
  decide

/-- C6 (amended): the executor runs exactly the caller's tokens, first
token as program name and no implicit shell, except two hard-coded
rewrites: an `echo` command of more than two tokens whose second-to-last
token is `>` becomes a `bash -c` sub-shell performing the redirect, and a
`mkdir` without `-p` has `-p` inserted. -/
theorem c6_tokens_verbatim (cmd : List String)
    (hecho : (cmd.headD "" == "echo" && decide (2 < cmd.length) &&
      cmd.getD (cmd.length - 2) "" == ">") = false)
    (hmkdir : (cmd.headD "" == "mkdir" && !(cmd.contains "-p")) = false) :
    modifyCommand cmd = cmd := by
  unfold modifyCommand
  simp only [hecho, hmkdir]
  simp

/-- C6 witness: an ordinary command passes through unchanged. -/
theorem c6_tokens_verbatim_witness :
    modifyCommand ["ls", "-la"] = ["ls", "-la"] :=
  c6_tokens_verbatim ["ls", "-la"] (by decide) (by decide)

/-- C7: on success the executor answers `success:true` with the standard
output trimmed of surrounding whitespace; and against any `execSync`
behaviour that throws whenever the command's raw output exceeds the given
`maxBuffer` (Node's contract), a command whose output exceeds the route's
5MB ceiling surfaces as `success:false` with an error field — never as
silently truncated output. -/
theorem c7_executor (env : ExecRouteEnv) (raw : List String → String)
    (cid : String) (cmd : List String)
    (hcid : cid ≠ "")
    (hex : env.containerExists cid = true)
    (hbuf : ∀ c mb, mb < (raw c).length → ∃ e, env.runExec c mb = .error e) :
    (∀ out, env.runExec (modifyCommand cmd) maxBufferBytes = .ok out →
      executeRoute env (some cid) (some cmd) =
        ⟨200, some true, some (jsTrim out), none, none, none⟩) ∧
    (maxBufferBytes < (raw (modifyCommand cmd)).length →
      (executeRoute env (some cid) (some cmd)).success = some false ∧
      (executeRoute env (some cid) (some cmd)).error
        = some "Error al ejecutar comando") := by
  have hc : (cid == "") = false := by
    cases h : cid == ""
    · rfl
    · exact absurd (by simpa using h) hcid
  constructor
  · intro out hout
    simp [executeRoute, hc, hex, hout]
  · intro hbig
    obtain ⟨e, he⟩ := hbuf (modifyCommand cmd) maxBufferBytes hbig
    simp [executeRoute, hc, hex, he]

/-- C7 witness: an environment whose `execSync` always throws a buffer
error, and raw output one byte over the 5MB ceiling. -/
theorem c7_executor_witness :
    (∀ out,
      (⟨fun _ => true, fun _ _ =>
          .error ⟨"stdout maxBuffer length exceeded", none⟩⟩ :
        ExecRouteEnv).runExec (modifyCommand ["ls"]) maxBufferBytes = .ok out →
      executeRoute
        (⟨fun _ => true, fun _ _ =>
            .error ⟨"stdout maxBuffer length exceeded", none⟩⟩ : ExecRouteEnv)
        (some "c1") (some ["ls"]) =
        ⟨200, some true, some (jsTrim out), none, none, none⟩) ∧
    (maxBufferBytes <
        (String.mk (List.replicate (maxBufferBytes + 1) 'a')).length →
      (executeRoute
        (⟨fun _ => true, fun _ _ =>
            .error ⟨"stdout maxBuffer length exceeded", none⟩⟩ : ExecRouteEnv)
        (some "c1") (some ["ls"])).success = some false ∧
      (executeRoute
        (⟨fun _ => true, fun _ _ =>
            .error ⟨"stdout maxBuffer length exceeded", none⟩⟩ : ExecRouteEnv)
        (some "c1") (some ["ls"])).error = some "Error al ejecutar comando") :=
  c7_executor
    ⟨fun _ => true, fun _ _ => .error ⟨"stdout maxBuffer length exceeded", none⟩⟩
    (fun _ => String.mk (List.replicate (maxBufferBytes + 1) 'a'))
    "c1" ["ls"] (by decide) rfl
    (fun _ _ _ => ⟨⟨"stdout maxBuffer length exceeded", none⟩, rfl⟩)

/-- C8: any unhandled exception in the planning flow body yields the
degraded plan object — exactly one fallback step, both boolean flags
false, every schema field present — instead of propagating: the flow is a
total function of the body's outcome. -/
theorem c8_degraded_plan (msg : String) :
    agenticPlanningFlowRun (.error msg) = degradedPlan msg ∧
    (agenticPlanningFlowRun (.error msg)).pasos.length = 1 ∧
    (agenticPlanningFlowRun (.error msg)).requiereInfoExterna = false ∧
    (agenticPlanningFlowRun (.error msg)).requiereAnalisisArchivos = false := by
  exact ⟨rfl, rfl, rfl, rfl⟩

/-- C3: every error containing "No such file or directory" is classified
`file_not_found` — never another strategy (the branch is first in the
chain and the fallback override cannot fire) — and the repair never
mutates the original command: the returned `original_command` is the input
string itself, the rewrite being built as a new string. -/
theorem c3_file_not_found (f : Fetcher) (cmd err : String)
    (h : strIncludes err "No such file or directory" = true) :
    finalStrategy cmd err = FixStrategy.fileNotFound ∧
    (shellFixCommand f cmd err).originalCommand = cmd ∧
    (∀ st, (shellFixCommand f cmd err).fixStrategy = some st →
      st = FixStrategy.fileNotFound) := by
  have hclass : classifyError err = .fileNotFound := by
    unfold classifyError
    rw [if_pos h]
  have hfinal : finalStrategy cmd err = .fileNotFound := by
    unfold finalStrategy
    rw [hclass]
    simp
  refine ⟨hfinal, ?_, ?_⟩
  · cases hc : computeFixedCmd f cmd err with
    | error m => simp [shellFixCommand, computeFixed, hc, Except.map]
    | ok fc =>
      cases he : executeCommandServer f (parseFixedCommand fc) <;>
        simp [shellFixCommand, computeFixed, hc, he, Except.map]
  · intro st hst
    cases hc : computeFixedCmd f cmd err with
    | error m => simp [shellFixCommand, computeFixed, hc, Except.map] at hst
    | ok fc =>
      cases he : executeCommandServer f (parseFixedCommand fc) <;>
        · simp [shellFixCommand, computeFixed, hc, he, Except.map] at hst
          rw [← hst, hfinal]

/-- C3 witness: a concrete `cat` failure. -/
theorem c3_file_not_found_witness :
    finalStrategy "cat a.txt" "cat: a.txt: No such file or directory"
      = FixStrategy.fileNotFound ∧
    (shellFixCommand (fun _ => RouteReply.ok true "") "cat a.txt"
      "cat: a.txt: No such file or directory").originalCommand = "cat a.txt" ∧
    (∀ st, (shellFixCommand (fun _ => RouteReply.ok true "") "cat a.txt"
      "cat: a.txt: No such file or directory").fixStrategy = some st →
      st = FixStrategy.fileNotFound) :=
  c3_file_not_found (fun _ => RouteReply.ok true "") "cat a.txt"
    "cat: a.txt: No such file or directory" (by decide)

/-- `replace(/^foo(\s)/, path + "$1")` on `"foo --version"`. -/
theorem replaceHead_foo (r : String) :
    replaceHeadTokenWs "foo --version" "foo" r = r ++ " --version" := by
  obtain ⟨d⟩ := r
  rfl

/-- Evaluation of the rewrite phase on scenario-1 inputs, as a function of
the `which foo` lookup's reply. -/
theorem computeFixedCmd_foo (f : Fetcher) (b : Bool) (out : String)
    (hf : f ["bash", "-c", "which foo || echo \"Not found\""]
      = RouteReply.ok b out) :
    computeFixedCmd f "foo --version" "bash: foo: command not found" =
      .ok (if strIncludes out "Not found" = true then "foo --version"
           else jsTrim out ++ " --version") := by
  have hexec : executeCommandServer f
      ["bash", "-c",
       "which " ++ ((jsSplit "foo --version" ' ').headD "") ++
         " || echo \"Not found\""] = .ok out := by
    have harg : ["bash", "-c",
        "which " ++ ((jsSplit "foo --version" ' ').headD "") ++
          " || echo \"Not found\""]
        = ["bash", "-c", "which foo || echo \"Not found\""] := by decide
    rw [harg]
    unfold executeCommandServer
    rw [hf]
  unfold computeFixedCmd
  rw [if_neg (by decide), if_neg (by decide), if_pos (by decide)]
  rw [if_neg (by decide), if_neg (by decide)]
  show (pure "foo --version" >>= fun fixed1 => _) = _
  rw [pure_bind]
  rw [if_pos (by decide)]
  show (executeCommandServer f _ >>= fun whichCommand => _) = _
  rw [hexec]
  show Except.bind (Except.ok out) _ = _
  show (if !(strIncludes out "Not found") then _ else _) = _
  have hmainr : (jsSplit "foo --version" ' ').headD "" = "foo" := by decide
  rw [hmainr]
  cases ho : strIncludes out "Not found"
  · simp only [ho, Bool.not_false, if_pos]
    rw [replaceHead_foo]
    simp only [Bool.false_eq_true, if_false]
    rfl
  · simp only [ho, Bool.not_true, Bool.false_eq_true, if_false, if_pos]
    rfl

/-- C4 counterexample: error `"bash: foo: command not found"`, original
command `foo --version`, and a container where `which foo` finds nothing
(the lookup echoes `Not found`): the strategy stays `command_not_found` —
it does not fall through to `general_fallback` (that fallback fires only
when no classification matched) — and the command is re-executed
unchanged, with no sub-shell wrapping. -/
theorem c4_counterexample :
    (shellFixCommand
      (fun c => if c == ["bash", "-c", "which foo || echo \"Not found\""]
        then RouteReply.ok true "Not found" else RouteReply.ok true "")
      "foo --version" "bash: foo: command not found").fixStrategy
      = some FixStrategy.commandNotFound ∧
    (shellFixCommand
      (fun c => if c == ["bash", "-c", "which foo || echo \"Not found\""]
        then RouteReply.ok true "Not found" else RouteReply.ok true "")
      "foo --version" "bash: foo: command not found").fixStrategy
      ≠ some FixStrategy.generalFallback ∧
    (shellFixCommand
      (fun c => if c == ["bash", "-c", "which foo || echo \"Not found\""]
        then RouteReply.ok true "Not found" else RouteReply.ok true "")
      "foo --version" "bash: foo: command not found").fixedCommand
      = some "foo --version" := by
  decide

/-- C4 (amended): on error `"bash: foo: command not found"` with command
`foo --version`, when `which foo` resolves a PATH location the repair
substitutes the resolved path for the head token; when it does not, the
strategy remains `command_not_found` and the command is left unchanged
(no `general_fallback` sub-shell wrapping — the fallback applies only
when no classification matched). -/
theorem c4_path_resolution (f : Fetcher) (b : Bool) (out : String)
    (hf : f ["bash", "-c", "which foo || echo \"Not found\""]
      = RouteReply.ok b out) :
    (strIncludes out "Not found" = false →
      (shellFixCommand f "foo --version"
        "bash: foo: command not found").fixedCommand
        = some (jsTrim out ++ " --version") ∧
      (shellFixCommand f "foo --version"
        "bash: foo: command not found").fixStrategy
        = some FixStrategy.commandNotFound) ∧
    (strIncludes out "Not found" = true →
      (shellFixCommand f "foo --version"
        "bash: foo: command not found").fixedCommand = some "foo --version" ∧
      (shellFixCommand f "foo --version"
        "bash: foo: command not found").fixStrategy
        = some FixStrategy.commandNotFound) := by
  have hcc := computeFixedCmd_foo f b out hf
  have hstrat : finalStrategy "foo --version" "bash: foo: command not found"
      = FixStrategy.commandNotFound := by decide
  constructor
  · intro ho
    rw [ho] at hcc
    simp only [Bool.false_eq_true, if_neg, if_false] at hcc
    cases he : executeCommandServer f
        (parseFixedCommand (jsTrim out ++ " --version")) <;>
      simp [shellFixCommand, computeFixed, hcc, he, hstrat, Except.map]
  · intro ho
    rw [ho] at hcc
    simp only [if_pos] at hcc
    cases he : executeCommandServer f (parseFixedCommand "foo --version") <;>
      simp [shellFixCommand, computeFixed, hcc, he, hstrat, Except.map]

/-- C4 witness: `which foo` resolves to `/usr/bin/foo`. -/
theorem c4_path_resolution_witness :
    (strIncludes "/usr/bin/foo" "Not found" = false →
      (shellFixCommand
        (fun c => if c == ["bash", "-c", "which foo || echo \"Not found\""]
          then RouteReply.ok true "/usr/bin/foo" else RouteReply.ok true "")
        "foo --version" "bash: foo: command not found").fixedCommand
        = some (jsTrim "/usr/bin/foo" ++ " --version") ∧
      (shellFixCommand
        (fun c => if c == ["bash", "-c", "which foo || echo \"Not found\""]
          then RouteReply.ok true "/usr/bin/foo" else RouteReply.ok true "")
        "foo --version" "bash: foo: command not found").fixStrategy
        = some FixStrategy.commandNotFound) ∧
    (strIncludes "/usr/bin/foo" "Not found" = true →
      (shellFixCommand
        (fun c => if c == ["bash", "-c", "which foo || echo \"Not found\""]
          then RouteReply.ok true "/usr/bin/foo" else RouteReply.ok true "")
        "foo --version" "bash: foo: command not found").fixedCommand
        = some "foo --version" ∧
      (shellFixCommand
        (fun c => if c == ["bash", "-c", "which foo || echo \"Not found\""]
          then RouteReply.ok true "/usr/bin/foo" else RouteReply.ok true "")
        "foo --version" "bash: foo: command not found").fixStrategy
        = some FixStrategy.commandNotFound) :=
  c4_path_resolution
    (fun c => if c == ["bash", "-c", "which foo || echo \"Not found\""]
      then RouteReply.ok true "/usr/bin/foo" else RouteReply.ok true "")
    true "/usr/bin/foo" (by decide)

/-- C5: evaluation at the failing input.  The re-executed fixed command
fails at the command level — the execute route answers HTTP 200 with
`success:false` and the stderr as `output` — yet `shell_fix_command`
reports `success:true` carrying that stderr, because
`DockerServiceServer.executeCommand` never reads `data.success`.  The
rewritten command is submitted exactly once. -/
theorem c5_failed_reexec_reports_success :
    (shellFixCommand
      (fun c => if c == ["cat", "notes.txt"]
        then RouteReply.ok false "cat: notes.txt: No such file or directory"
        else RouteReply.ok true "")
      "cat notes.txt" "cat: notes.txt: No such file or directory").success
      = true ∧
    (shellFixCommand
      (fun c => if c == ["cat", "notes.txt"]
        then RouteReply.ok false "cat: notes.txt: No such file or directory"
        else RouteReply.ok true "")
      "cat notes.txt" "cat: notes.txt: No such file or directory").output
      = some "cat: notes.txt: No such file or directory" ∧
    fixExecCalls
      (fun c => if c == ["cat", "notes.txt"]
        then RouteReply.ok false "cat: notes.txt: No such file or directory"
        else RouteReply.ok true "")
      "cat notes.txt" "cat: notes.txt: No such file or directory"
      = [["cat", "notes.txt"]] := by
  decide

/-- C10: the list route returns only containers whose name or image
contains "codeai"; both cleanup routes stop/remove only such containers;
and the pool reconciler's canonical container — fed from the list route —
always satisfies the filter.  A container not matching the filter is thus
invisible to the registry for every raw `docker ps` output: never listed,
never canonical, never stopped or removed. -/
theorem c10_codeai_filter (output keep : String) (dp : String → Option Nat) :
    (∀ c ∈ listContainersRoute output, codeaiMatch c.name c.image = true) ∧
    (∀ r ∈ cleanupOthersTargets output keep, codeaiMatch r.name r.image = true) ∧
    (∀ r ∈ cleanupAllTargets output, codeaiMatch r.name r.image = true) ∧
    (∀ L, canonicalOfList dp output = some L →
      codeaiMatch L.name L.image = true) := by
  refine ⟨?_, ?_, ?_, ?_⟩
  · intro c hc
    exact (List.mem_filter.mp hc).2
  · intro r hr
    have h2 := (List.mem_filter.mp hr).2
    rw [Bool.and_eq_true] at h2
    exact h2.1
  · intro r hr
    exact (List.mem_filter.mp hr).2
  · intro L hL
    simp only [canonicalOfList] at hL
    split at hL
    case isTrue h =>
      have hinj := Option.some.inj hL
      have hne : (listContainersRoute output).map (toServiceInfo dp) ≠ [] := by
        intro hnil
        rw [hnil] at h
        simp at h
      have hmem : (sortByCreatedDesc
          ((listContainersRoute output).map (toServiceInfo dp))).headD
            arbitraryContainer ∈
          (listContainersRoute output).map (toServiceInfo dp) :=
        mem_sortByCreatedDesc.mp (headD_mem (sortByCreatedDesc_ne_nil hne) _)
      rw [hinj] at hmem
      obtain ⟨c, hc, hcl⟩ := List.mem_map.mp hmem
      have hcp := (List.mem_filter.mp hc).2
      rw [← hcl]
      simpa [toServiceInfo] using hcp
    case isFalse => exact absurd hL (by simp)

/-! ### C9 helper lemmas: whitespace and the JSON parser -/

theorem dropWhile_idem {α : Type} (p : α → Bool) (l : List α) :
    (l.dropWhile p).dropWhile p = l.dropWhile p := by
  induction l with
  | nil => rfl
  | cons c t ih =>
    by_cases h : p c = true
    · simp [List.dropWhile_cons, h, ih]
    · simp [List.dropWhile_cons, h]

theorem parseValue_nil (n : Nat) : parseValue n [] = none := by
  cases n <;> rfl

theorem jsonParseTop_dropWhile (l : List Char) :
    jsonParseTop (l.dropWhile jsonWsChar) = jsonParseTop l := by
  unfold jsonParseTop
  rw [dropWhile_idem]

theorem jsonParseTop_cons_ws {c : Char} (h : jsonWsChar c = true)
    (t : List Char) : jsonParseTop (c :: t) = jsonParseTop t := by
  unfold jsonParseTop
  rw [List.dropWhile_cons, if_pos h]

theorem core_ne_of_parse {l : List Char} {v : Json}
    (h : jsonParseTop l = some v) : l.dropWhile jsonWsChar ≠ [] := by
  intro hnil
  simp only [jsonParseTop, hnil, parseValue_nil] at h
  exact Option.noConfusion h

theorem char_beq_false_of_toNat_ne {c d : Char} (h : c.toNat ≠ d.toNat) :
    (c == d) = false := by
  cases hb : c == d
  · rfl
  · exact absurd (congrArg Char.toNat (eq_of_beq hb)) h

theorem char_isDigit_false_of_toNat {c : Char}
    (h : c.toNat < 48 ∨ 57 < c.toNat) : c.isDigit = false := by
  cases hb : c.isDigit
  · rfl
  · exfalso
    have hb2 : (decide (48 ≤ c.val) && decide (c.val ≤ 57)) = true := hb
    rw [Bool.and_eq_true, decide_eq_true_eq, decide_eq_true_eq] at hb2
    have hge : (48 : Nat) ≤ c.toNat := hb2.1
    have hle : c.toNat ≤ 57 := hb2.2
    omega

theorem parseNumberLex_cons_none {c : Char} (t : List Char)
    (hm : (c == '-') = false) (h0 : (c == '0') = false)
    (hd : c.isDigit = false) :
    parseNumberLex (c :: t) = none := by
  unfold parseNumberLex
  simp [List.headD_cons, hm, h0, hd]

theorem parseValue_cons_none_of_guards (t : List Char) (n : Nat) {c : Char}
    (hws : jsonWsChar c = false) (hn : (c == 'n') = false)
    (ht : (c == 't') = false) (hf : (c == 'f') = false)
    (hq : (c == '"') = false) (hb : (c == '[') = false)
    (hbr : (c == '{') = false) (hm : (c == '-') = false)
    (h0 : (c == '0') = false) (hd : c.isDigit = false) :
    parseValue n (c :: t) = none := by
  cases n with
  | zero => rfl
  | succ m =>
    have hnum : parseNumberLex (c :: t) = none :=
      parseNumberLex_cons_none t hm h0 hd
    rw [parseValue]
    rw [List.dropWhile_cons, if_neg (by simp [hws])]
    simp [hn, ht, hf, hq, hb, hbr, hnum]

theorem jsWs_not_jsonWs_toNat {c : Char} (h1 : jsWsChar c = true)
    (h2 : jsonWsChar c = false) :
    c.toNat = 11 ∨ c.toNat = 12 ∨ c.toNat = 160 ∨ c.toNat = 5760 ∨
    (8192 ≤ c.toNat ∧ c.toNat ≤ 8202) ∨ c.toNat = 8232 ∨ c.toNat = 8233 ∨
    c.toNat = 8239 ∨ c.toNat = 8287 ∨ c.toNat = 12288 ∨
    c.toNat = 65279 := by
  simp only [jsWsChar, Bool.or_eq_true, beq_iff_eq, Bool.and_eq_true,
    decide_eq_true_eq] at h1
  simp only [jsonWsChar, Bool.or_eq_false_iff, beq_eq_false_iff_ne] at h2
  rcases h1 with (((((((((((((rfl | rfl) | rfl) | rfl) | rfl) | rfl) |
    rfl) | rfl) | hr) | rfl) | rfl) | rfl) | rfl) | rfl) | rfl
  · exact absurd rfl h2.1.1.1
  · exact absurd rfl h2.1.1.2
  · exact absurd rfl h2.1.2
  · exact absurd rfl h2.2
  · exact Or.inl rfl
  · exact Or.inr (Or.inl rfl)
  · exact Or.inr (Or.inr (Or.inl rfl))
  · exact Or.inr (Or.inr (Or.inr (Or.inl rfl)))
  · exact Or.inr (Or.inr (Or.inr (Or.inr (Or.inl hr))))
  · exact Or.inr (Or.inr (Or.inr (Or.inr (Or.inr (Or.inl rfl)))))
  · exact Or.inr (Or.inr (Or.inr (Or.inr (Or.inr (Or.inr (Or.inl rfl))))))
  · exact Or.inr (Or.inr (Or.inr (Or.inr (Or.inr (Or.inr (Or.inr
      (Or.inl rfl)))))))
  · exact Or.inr (Or.inr (Or.inr (Or.inr (Or.inr (Or.inr (Or.inr (Or.inr
      (Or.inl rfl))))))))
  · exact Or.inr (Or.inr (Or.inr (Or.inr (Or.inr (Or.inr (Or.inr (Or.inr
      (Or.inr (Or.inl rfl)))))))))
  · exact Or.inr (Or.inr (Or.inr (Or.inr (Or.inr (Or.inr (Or.inr (Or.inr
      (Or.inr (Or.inr rfl)))))))))

theorem parseValue_cons_none_of_ws {c : Char} (h1 : jsWsChar c = true)
    (h2 : jsonWsChar c = false) (t : List Char) (n : Nat) :
    parseValue n (c :: t) = none := by
  have hv := jsWs_not_jsonWs_toNat h1 h2
  refine parseValue_cons_none_of_guards t n h2 ?_ ?_ ?_ ?_ ?_ ?_ ?_ ?_ ?_
  · exact char_beq_false_of_toNat_ne (d := 'n')
      (by have hd : ('n').toNat = 110 := rfl; omega)
  · exact char_beq_false_of_toNat_ne (d := 't')
      (by have hd : ('t').toNat = 116 := rfl; omega)
  · exact char_beq_false_of_toNat_ne (d := 'f')
      (by have hd : ('f').toNat = 102 := rfl; omega)
  · exact char_beq_false_of_toNat_ne (d := '"')
      (by have hd : ('"').toNat = 34 := rfl; omega)
  · exact char_beq_false_of_toNat_ne (d := '[')
      (by have hd : ('[').toNat = 91 := rfl; omega)
  · exact char_beq_false_of_toNat_ne (d := '{')
      (by have hd : ('{').toNat = 123 := rfl; omega)
  · exact char_beq_false_of_toNat_ne (d := '-')
      (by have hd : ('-').toNat = 45 := rfl; omega)
  · exact char_beq_false_of_toNat_ne (d := '0')
      (by have hd : ('0').toNat = 48 := rfl; omega)
  · exact char_isDigit_false_of_toNat (by omega)

theorem jsonWs_sub {c : Char} (h : jsonWsChar c = true) :
    jsWsChar c = true := by
  simp only [jsonWsChar, Bool.or_eq_true, beq_iff_eq] at h
  rcases h with ((rfl | rfl) | rfl) | rfl <;> decide

theorem dropWhile_js_eq_json {l : List Char} {v : Json}
    (h : jsonParseTop l = some v) :
    l.dropWhile jsWsChar = l.dropWhile jsonWsChar := by
  induction l with
  | nil => rfl
  | cons c t ih =>
    cases hjson : jsonWsChar c
    case true =>
      rw [List.dropWhile_cons, List.dropWhile_cons,
        if_pos (jsonWs_sub hjson), if_pos hjson]
      exact ih (by rwa [jsonParseTop_cons_ws hjson] at h)
    case false =>
      cases hjs : jsWsChar c
      case false =>
        rw [List.dropWhile_cons, List.dropWhile_cons,
          if_neg (by simp [hjs]), if_neg (by simp [hjson])]
      case true =>
        exfalso
        have hcore : (c :: t).dropWhile jsonWsChar = c :: t := by
          rw [List.dropWhile_cons, if_neg (by simp [hjson])]
        simp only [jsonParseTop, hcore,
          parseValue_cons_none_of_ws hjs hjson] at h
        exact Option.noConfusion h

/-! ### C9 helper lemmas: the fence matcher -/

theorem findFence_none_cons {c : Char} {t : List Char}
    (h : findFence (c :: t) = none) : findFence t = none := by
  unfold findFence at h
  split at h
  · exact Option.noConfusion h
  · exact Option.map_eq_none'.mp h

theorem isFencePrefix_false_of_none {c : Char} {t : List Char}
    (h : findFence (c :: t) = none) : isFencePrefix (c :: t) = false := by
  cases hb : isFencePrefix (c :: t)
  · rfl
  · unfold findFence at h
    rw [if_pos hb] at h
    exact Option.noConfusion h

theorem findFence_none_dropWhile {p : Char → Bool} {l : List Char}
    (h : findFence l = none) : findFence (l.dropWhile p) = none := by
  induction l with
  | nil => exact h
  | cons c t ih =>
    rw [List.dropWhile_cons]
    split
    · exact ih (findFence_none_cons h)
    · exact h

theorem findFence_append_closing {u : List Char} (h : findFence u = none) :
    findFence (u ++ closingFence) = some (u.length + 1) := by
  induction u with
  | nil => rfl
  | cons c u' ih =>
    have h' := findFence_none_cons h
    have hfp := isFencePrefix_false_of_none h
    have hih := ih h'
    have hfp2 : isFencePrefix (c :: (u' ++ closingFence)) = false := by
      cases u' with
      | nil => simp [closingFence, isFencePrefix]
      | cons y u'' =>
        cases u'' with
        | nil => simp [closingFence, isFencePrefix]
        | cons z u''' =>
          calc isFencePrefix (c :: ((y :: z :: u''') ++ closingFence))
              = isFencePrefix (c :: y :: z :: u''') := rfl
            _ = false := hfp
    rw [List.cons_append, findFence, if_neg (by simp [hfp2]), hih]
    simp

theorem getD_append_closing (u : List Char) :
    (u ++ closingFence).getD u.length ' ' = '\n' := by
  induction u with
  | nil => rfl
  | cons a u' ih => simpa using ih

theorem take_append_closing (u : List Char) :
    (u ++ closingFence).take u.length = u := by
  induction u with
  | nil => rfl
  | cons a u' ih => simp [ih]

theorem fence_body_eq {s : List Char} (hne : s.dropWhile jsWsChar ≠ []) :
    ('\n' :: (s ++ closingFence)).dropWhile jsWsChar
      = s.dropWhile jsWsChar ++ closingFence := by
  rw [List.dropWhile_cons, if_pos (by decide), List.dropWhile_append,
    if_neg (by simpa using hne)]

theorem matchFence_tail {u : List Char} (hu : findFence u = none) :
    (match findFence (u ++ closingFence) with
     | none => none
     | some q =>
       if 0 < q && ((u ++ closingFence).getD (q - 1) ' ' == '\n') then
         some ((u ++ closingFence).take (q - 1))
       else some ((u ++ closingFence).take q)) = some u := by
  rw [findFence_append_closing hu]
  simp only [Nat.add_sub_cancel, getD_append_closing, take_append_closing]
  simp

theorem matchFenceCapture_wrapJson_step (s : List Char) :
    matchFenceCapture (wrapFenceJson s)
      = (match findFence
            (('\n' :: (s ++ closingFence)).dropWhile jsWsChar) with
         | none => none
         | some q =>
           if 0 < q &&
               ((('\n' :: (s ++ closingFence)).dropWhile jsWsChar).getD
                 (q - 1) ' ' == '\n') then
             some ((('\n' :: (s ++ closingFence)).dropWhile jsWsChar).take
               (q - 1))
           else
             some ((('\n' :: (s ++ closingFence)).dropWhile jsWsChar).take
               q)) := rfl

theorem matchFenceCapture_wrapPlain_step (s : List Char) :
    matchFenceCapture (wrapFencePlain s)
      = (match findFence
            (('\n' :: (s ++ closingFence)).dropWhile jsWsChar) with
         | none => none
         | some q =>
           if 0 < q &&
               ((('\n' :: (s ++ closingFence)).dropWhile jsWsChar).getD
                 (q - 1) ' ' == '\n') then
             some ((('\n' :: (s ++ closingFence)).dropWhile jsWsChar).take
               (q - 1))
           else
             some ((('\n' :: (s ++ closingFence)).dropWhile jsWsChar).take
               q)) := rfl

theorem matchFenceCapture_wrapJson {s : List Char}
    (hnof : findFence s = none) (hne : s.dropWhile jsWsChar ≠ []) :
    matchFenceCapture (wrapFenceJson s)
      = some (s.dropWhile jsWsChar) := by
  have hu : findFence (s.dropWhile jsWsChar) = none :=
    findFence_none_dropWhile hnof
  rw [matchFenceCapture_wrapJson_step, fence_body_eq hne]
  exact matchFence_tail hu

theorem matchFenceCapture_wrapPlain {s : List Char}
    (hnof : findFence s = none) (hne : s.dropWhile jsWsChar ≠ []) :
    matchFenceCapture (wrapFencePlain s)
      = some (s.dropWhile jsWsChar) := by
  have hu : findFence (s.dropWhile jsWsChar) = none :=
    findFence_none_dropWhile hnof
  rw [matchFenceCapture_wrapPlain_step, fence_body_eq hne]
  exact matchFence_tail hu

/-! ### C9 helper lemmas: the extraction pipeline on fenced responses -/

theorem jsonParseTop_backtick (r : List Char) :
    jsonParseTop ('\x60' :: r) = none := by
  have hcore : ('\x60' :: r).dropWhile jsonWsChar = '\x60' :: r := by
    rw [List.dropWhile_cons, if_neg (by decide)]
  simp only [jsonParseTop, hcore]
  rw [parseValue_cons_none_of_guards r _ (by decide) (by decide) (by decide)
    (by decide) (by decide) (by decide) (by decide) (by decide) (by decide)
    (by decide)]

theorem extractJson_wrapJson {s : List Char} {v : Json}
    (hparse : jsonParseTop s = some v) (hnof : findFence s = none) :
    extractJson (wrapFenceJson s) = some v := by
  have hdw : s.dropWhile jsWsChar = s.dropWhile jsonWsChar :=
    dropWhile_js_eq_json hparse
  have hne : s.dropWhile jsWsChar ≠ [] := by
    rw [hdw]
    exact core_ne_of_parse hparse
  have hcap := matchFenceCapture_wrapJson hnof hne
  have hdirect : jsonParseTop (wrapFenceJson s) = none :=
    jsonParseTop_backtick _
  have hcapParse : jsonParseTop (s.dropWhile jsWsChar) = some v := by
    rw [hdw, jsonParseTop_dropWhile]
    exact hparse
  unfold extractJson
  rw [hdirect, hcap]
  simp [hcapParse, hne]

theorem extractJson_wrapPlain {s : List Char} {v : Json}
    (hparse : jsonParseTop s = some v) (hnof : findFence s = none) :
    extractJson (wrapFencePlain s) = some v := by
  have hdw : s.dropWhile jsWsChar = s.dropWhile jsonWsChar :=
    dropWhile_js_eq_json hparse
  have hne : s.dropWhile jsWsChar ≠ [] := by
    rw [hdw]
    exact core_ne_of_parse hparse
  have hcap := matchFenceCapture_wrapPlain hnof hne
  have hdirect : jsonParseTop (wrapFencePlain s) = none :=
    jsonParseTop_backtick _
  have hcapParse : jsonParseTop (s.dropWhile jsWsChar) = some v := by
    rw [hdw, jsonParseTop_dropWhile]
    exact hparse
  unfold extractJson
  rw [hdirect, hcap]
  simp [hcapParse, hne]

/-! ### C9 helper lemmas: the schema-based basic response -/

theorem basicValue_kind (text : String) (k : String) (ty : SchemaPropTy) :
    propKindMatches ty (basicValue text k ty) = true := by
  cases ty with
  | strTy =>
    show propKindMatches SchemaPropTy.strTy
        (if k == "plan" then Json.str text
         else Json.str ("Información extraída para " ++ k)) = true
    split <;> rfl
  | arrTy o => cases o <;> rfl
  | boolTy => rfl
  | objTy => rfl
  | otherTy => rfl

theorem lookupProp_basic {text : String}
    {props : List (String × SchemaPropTy)}
    (hnodup : props.Pairwise (fun a b => a.1 ≠ b.1)) {k : String}
    {ty : SchemaPropTy} (hmem : (k, ty) ∈ props) :
    lookupProp (props.map (fun kp => (kp.1, basicValue text kp.1 kp.2))) k
      = some (basicValue text k ty) := by
  induction props with
  | nil => exact absurd hmem (List.not_mem_nil _)
  | cons p ps ih =>
    rcases List.mem_cons.mp hmem with heq | hmem2
    · rw [← heq]
      simp [lookupProp]
    · have hne : p.1 ≠ k :=
        (List.pairwise_cons.mp hnodup).1 (k, ty) hmem2
      have ih2 := ih (List.pairwise_cons.mp hnodup).2 hmem2
      rw [List.map_cons]
      unfold lookupProp
      rw [List.find?_cons_of_neg _ (by simpa using hne)]
      exact ih2

theorem conforms_basic (sch : SchemaCfg) (text : String)
    (hnodup : sch.properties.Pairwise (fun a b => a.1 ≠ b.1)) :
    conformsToSchema sch (createBasicResponseFromSchema sch text)
      = true := by
  unfold createBasicResponseFromSchema conformsToSchema
  rw [List.all_eq_true]
  intro kp hkp
  rw [lookupProp_basic hnodup hkp]
  exact basicValue_kind text kp.1 kp.2

/-- C9 counterexample: the claim fails for the valid JSON value
`"\x60\x60\x60"` (a JSON string whose content is three backticks).  Bare,
`JSON.parse` accepts it; wrapped in a ```` ```json ```` fenced block, the
fence regex captures only `"` (the lazy group stops at the payload's own
backticks), every fallback of `extractJsonFromText` fails, and
`getStructuredResponse` falls back to the schema placeholder instead of
the parsed string — so the wrapped response is NOT parsed to the same
value as the bare response. -/
theorem c9_counterexample :
    jsonParseTop ("\"\x60\x60\x60\"".toList)
        = some (Json.str "\x60\x60\x60") ∧
    extractJson (wrapFenceJson ("\"\x60\x60\x60\"".toList)) = none ∧
    structuredResponse ⟨[("plan", SchemaPropTy.strTy)]⟩
        (wrapFenceJson ("\"\x60\x60\x60\"".toList))
      = createBasicResponseFromSchema ⟨[("plan", SchemaPropTy.strTy)]⟩
          (String.mk (wrapFenceJson ("\"\x60\x60\x60\"".toList))) ∧
    structuredResponse ⟨[("plan", SchemaPropTy.strTy)]⟩
        (wrapFenceJson ("\"\x60\x60\x60\"".toList))
      ≠ Json.str "\x60\x60\x60" := by
  refine ⟨rfl, rfl, rfl, ?_⟩
  intro h
  rw [show structuredResponse ⟨[("plan", SchemaPropTy.strTy)]⟩
        (wrapFenceJson ("\"\x60\x60\x60\"".toList))
      = Json.obj [("plan",
          Json.str (String.mk
            (wrapFenceJson ("\"\x60\x60\x60\"".toList))))] from rfl] at h
  exact Json.noConfusion h

/-- C9 (amended): for every valid JSON payload `s` that itself contains
no ` ``` ` fence and parses to a JS-truthy value `v`, the structured
response of the ```` ```json ````-fenced wrapping, of the plain
```` ``` ````-fenced wrapping, and of the bare payload all equal `v`;
and whenever direct parse and extraction both fail, the response is the
schema placeholder, which conforms to the schema (for distinct property
keys). -/
theorem c9_fenced_extraction_amended (s : List Char) (v : Json)
    (schema : SchemaCfg)
    (hparse : jsonParseTop s = some v)
    (hnof : findFence s = none)
    (htruthy : jsTruthy v = true) :
    structuredResponse schema (wrapFenceJson s) = v ∧
    structuredResponse schema (wrapFencePlain s) = v ∧
    structuredResponse schema s = v ∧
    (∀ (t : List Char) (sch : SchemaCfg),
      sch.properties.Pairwise (fun a b => a.1 ≠ b.1) →
      jsonParseTop t = none → extractJson t = none →
      structuredResponse sch t
          = createBasicResponseFromSchema sch (String.mk t) ∧
      conformsToSchema sch (structuredResponse sch t) = true) := by
  refine ⟨?_, ?_, ?_, ?_⟩
  · unfold structuredResponse
    rw [show jsonParseTop (wrapFenceJson s) = none from
        jsonParseTop_backtick _,
      extractJson_wrapJson hparse hnof]
    simp [htruthy]
  · unfold structuredResponse
    rw [show jsonParseTop (wrapFencePlain s) = none from
        jsonParseTop_backtick _,
      extractJson_wrapPlain hparse hnof]
    simp [htruthy]
  · unfold structuredResponse
    rw [hparse]
  · intro t sch hnodup hnp hnx
    have hsr : structuredResponse sch t
        = createBasicResponseFromSchema sch (String.mk t) := by
      unfold structuredResponse
      rw [hnp, hnx]
    refine ⟨hsr, ?_⟩
    rw [hsr]
    exact conforms_basic sch _ hnodup

/-- C9 witness: the amended theorem applied to the payload
`\x7b"a": 1\x7d` with the one-property schema `plan : string`. -/
theorem c9_fenced_extraction_amended_witness :
    jsonParseTop ("\x7b\"a\": 1\x7d".toList)
        = some (Json.obj [("a", Json.num "1")]) ∧
    findFence ("\x7b\"a\": 1\x7d".toList) = none ∧
    jsTruthy (Json.obj [("a", Json.num "1")]) = true ∧
    structuredResponse ⟨[("plan", SchemaPropTy.strTy)]⟩
        (wrapFenceJson ("\x7b\"a\": 1\x7d".toList))
      = Json.obj [("a", Json.num "1")] :=
  ⟨rfl, rfl, rfl,
    (c9_fenced_extraction_amended ("\x7b\"a\": 1\x7d".toList)
      (Json.obj [("a", Json.num "1")]) ⟨[("plan", SchemaPropTy.strTy)]⟩
      rfl rfl rfl).1⟩

end FlowCode
